import Mathlib

/-!
Verification development for the fimfareader repository: a shallow embedding
of the archive loader, story metadata decoder, query parser/compiler and
search adapter, with theorems checking the natural-language specification
against the code.

Machine integers from the source (`i64`, `i32`, `u8`) are modelled as `Int`
or `Nat` with explicit range checks at the points where the source performs
them (serde range-checked deserialization, `i64::from_str` overflow).
-/

namespace Fimfareader

/-! ## Timestamps

Model of `chrono::DateTime<Utc>`: seconds since the Unix epoch plus a
nanosecond part.  `chrono` orders timestamps lexicographically by
(seconds, nanoseconds), and `DateTime::date` is the UTC calendar day,
i.e. the floor of the second count divided by 86400 (chrono has no leap
seconds in its timeline).  A calendar day is identified here by its day
number rather than a (year, month, day) triple; the two are in bijection.
-/

structure DateTime where
  secs : Int
  nanos : Nat
deriving DecidableEq, Repr

/-- Strict order on `chrono::DateTime<Utc>` (lexicographic). -/
def dtLt (a b : DateTime) : Bool :=
  a.secs < b.secs || (a.secs = b.secs && a.nanos < b.nanos)

/-- `DateTime::date()`: the UTC calendar day, as a day number since epoch. -/
def dtDate (a : DateTime) : Int :=
  Int.ediv a.secs 86400

/-! ## Integer parsing

Model of Rust `i64::from_str`: an optional sign followed by one or more
ASCII digits, rejecting any other character and rejecting values outside
the `i64` range (overflow is an error in Rust).
-/

def digitsToNat (ds : List Char) : Nat :=
  ds.foldl (fun a c => a * 10 + (c.toNat - 48)) 0

def parseI64 (s : String) : Option Int :=
  let cs := s.data
  let signed : Bool × List Char :=
    match cs with
    | '-' :: rest => (true, rest)
    | '+' :: rest => (false, rest)
    | _ => (false, cs)
  let neg := signed.1
  let digits := signed.2
  if digits.isEmpty then none
  else if digits.all Char.isDigit then
    let v : Int := if neg then -(digitsToNat digits : Int) else (digitsToNat digits : Int)
    if -(2 ^ 63) ≤ v ∧ v < 2 ^ 63 then some v else none
  else none

/-! ## Story metadata records

Direct translation of the structs in `src/archive/story.rs`.  The `tags`
field holds tag values; the pointer-sharing of `&'static Tag` handles is
modelled separately with the interner (see the `Arcs` section below).
Colors hold the three decoded bytes as `Nat` values below 256 by
construction of the hex decoder.
-/

structure Archive where
  date_checked : Option DateTime
  date_created : Option DateTime
  date_fetched : Option DateTime
  date_updated : Option DateTime
  path : String
deriving DecidableEq, Repr

structure Avatar where
  x16 : Option String
  x32 : Option String
  x48 : Option String
  x64 : Option String
  x96 : Option String
  x128 : Option String
  x160 : Option String
  x192 : Option String
  x256 : Option String
  x320 : Option String
  x384 : Option String
  x512 : Option String
deriving DecidableEq, Repr

structure Author where
  avatar : Option Avatar
  bio_html : Option String
  date_joined : Option DateTime
  id : Int
  name : String
  num_blog_posts : Option Int
  num_followers : Option Int
  num_stories : Option Int
  url : String
deriving DecidableEq, Repr

structure Chapter where
  chapter_number : Int
  date_modified : Option DateTime
  date_published : Option DateTime
  id : Int
  num_views : Int
  num_words : Int
  published : Bool
  title : String
  url : String
deriving DecidableEq, Repr

structure Color where
  red : Nat
  green : Nat
  blue : Nat
deriving DecidableEq, Repr

inductive CompletionStatus where
  | cancelled
  | complete
  | hiatus
  | incomplete
deriving DecidableEq, Repr

inductive ContentRating where
  | everyone
  | mature
  | teen
deriving DecidableEq, Repr

structure CoverImage where
  full : String
  large : String
  medium : String
  thumbnail : String
deriving DecidableEq, Repr

inductive Status where
  | approveQueue
  | notVisible
  | postQueue
  | visible
deriving DecidableEq, Repr

structure Tag where
  id : Int
  name : String
  old_id : String
  kind : String
  url : String
deriving DecidableEq, Repr

structure Story where
  archive : Archive
  author : Author
  chapters : List Chapter
  color : Option Color
  completion_status : CompletionStatus
  content_rating : ContentRating
  cover_image : Option CoverImage
  date_modified : Option DateTime
  date_published : Option DateTime
  date_updated : Option DateTime
  description_html : String
  id : Int
  num_chapters : Int
  num_comments : Int
  num_dislikes : Int
  num_likes : Int
  num_views : Int
  num_words : Int
  prequel : Option Int
  published : Bool
  rating : Int
  short_description : String
  status : Status
  submitted : Bool
  tags : List Tag
  title : String
  total_num_views : Int
  url : String
deriving DecidableEq, Repr

/-! ## JSON values and text parsing

Model of `serde_json` as used by the index decoder.  Objects keep every
key/value pair in source order (the streaming deserializer sees all of
them).  Restrictions of the model, documented here once: numeric literals
are integers (every numeric field of the schema is an integer type),
string escapes cover the simple JSON escapes plus non-surrogate
`\uXXXX`, and floats/exponents are not parsed.
-/

inductive Json where
  | null
  | bool (b : Bool)
  | num (n : Int)
  | str (s : String)
  | arr (xs : List Json)
  | obj (fields : List (String × Json))

def jsonWs (c : Char) : Bool :=
  c = ' ' || c = '\t' || c = '\n' || c = '\r'

def skipWs (cs : List Char) : List Char :=
  cs.dropWhile jsonWs

def hexVal (c : Char) : Option Nat :=
  if '0' ≤ c ∧ c ≤ '9' then some (c.toNat - 48)
  else if 'a' ≤ c ∧ c ≤ 'f' then some (c.toNat - 87)
  else if 'A' ≤ c ∧ c ≤ 'F' then some (c.toNat - 55)
  else none

/-- Parse the body of a JSON string literal, after the opening quote. -/
def parseJString : Nat → List Char → Option (String × List Char)
  | 0, _ => none
  | _, [] => none
  | fuel + 1, c :: rest =>
    if c = '"' then some ("", rest)
    else if c = '\\' then
      match rest with
      | [] => none
      | e :: rest' =>
        let decoded : Option (Char × List Char) :=
          if e = '"' then some ('"', rest')
          else if e = '\\' then some ('\\', rest')
          else if e = '/' then some ('/', rest')
          else if e = 'b' then some ('\x08', rest')
          else if e = 'f' then some ('\x0c', rest')
          else if e = 'n' then some ('\n', rest')
          else if e = 'r' then some ('\r', rest')
          else if e = 't' then some ('\t', rest')
          else if e = 'u' then
            match rest' with
            | h1 :: h2 :: h3 :: h4 :: rest'' =>
              match hexVal h1, hexVal h2, hexVal h3, hexVal h4 with
              | some a, some b, some c, some d =>
                let n := ((a * 16 + b) * 16 + c) * 16 + d
                if 0xd800 ≤ n ∧ n < 0xe000 then none
                else some (Char.ofNat n, rest'')
              | _, _, _, _ => none
            | _ => none
          else none
        match decoded with
        | some (ch, rest'') =>
          match parseJString fuel rest'' with
          | some (s, left) => some (⟨ch :: s.data⟩, left)
          | none => none
        | none => none
    else
      match parseJString fuel rest with
      | some (s, left) => some (⟨c :: s.data⟩, left)
      | none => none

/-- Parse a JSON integer numeral: optional minus, no leading zeros. -/
def parseJNumber (cs : List Char) : Option (Int × List Char) :=
  let signed : Bool × List Char :=
    match cs with
    | '-' :: rest => (true, rest)
    | _ => (false, cs)
  let digits := signed.2.takeWhile Char.isDigit
  let rest := signed.2.dropWhile Char.isDigit
  match digits with
  | [] => none
  | '0' :: _ :: _ => none
  | ds =>
    let n : Int := digitsToNat ds
    some (if signed.1 then -n else n, rest)

mutual

/-- Parse one JSON value, returning the unconsumed suffix. -/
def parseJson : Nat → List Char → Option (Json × List Char)
  | 0, _ => none
  | fuel + 1, cs =>
    match skipWs cs with
    | [] => none
    | c :: rest =>
      if c = 'n' then
        match c :: rest with
        | 'n' :: 'u' :: 'l' :: 'l' :: left => some (Json.null, left)
        | _ => none
      else if c = 't' then
        match c :: rest with
        | 't' :: 'r' :: 'u' :: 'e' :: left => some (Json.bool true, left)
        | _ => none
      else if c = 'f' then
        match c :: rest with
        | 'f' :: 'a' :: 'l' :: 's' :: 'e' :: left => some (Json.bool false, left)
        | _ => none
      else if c = '"' then
        match parseJString fuel rest with
        | some (s, left) => some (Json.str s, left)
        | none => none
      else if c = '[' then
        match skipWs rest with
        | ']' :: left => some (Json.arr [], left)
        | other =>
          match parseJsonItems fuel other with
          | some (xs, left) =>
            match skipWs left with
            | ']' :: left' => some (Json.arr xs, left')
            | _ => none
          | none => none
      else if c = '{' then
        match skipWs rest with
        | '}' :: left => some (Json.obj [], left)
        | other =>
          match parseJsonFields fuel other with
          | some (fs, left) =>
            match skipWs left with
            | '}' :: left' => some (Json.obj fs, left')
            | _ => none
          | none => none
      else
        match parseJNumber (c :: rest) with
        | some (n, left) => some (Json.num n, left)
        | none => none

/-- Parse one or more comma-separated JSON values. -/
def parseJsonItems : Nat → List Char → Option (List Json × List Char)
  | 0, _ => none
  | fuel + 1, cs =>
    match parseJson fuel cs with
    | some (x, left) =>
      match skipWs left with
      | ',' :: left' =>
        match parseJsonItems fuel left' with
        | some (xs, left'') => some (x :: xs, left'')
        | none => none
      | other => some ([x], other)
    | none => none

/-- Parse one or more comma-separated `"key": value` object members. -/
def parseJsonFields : Nat → List Char → Option (List (String × Json) × List Char)
  | 0, _ => none
  | fuel + 1, cs =>
    match skipWs cs with
    | '"' :: rest =>
      match parseJString fuel rest with
      | some (k, left) =>
        match skipWs left with
        | ':' :: left' =>
          match parseJson fuel left' with
          | some (v, left'') =>
            match skipWs left'' with
            | ',' :: left3 =>
              match parseJsonFields fuel left3 with
              | some (fs, left4) => some ((k, v) :: fs, left4)
              | none => none
            | other => some ([(k, v)], other)
          | none => none
        | _ => none
      | none => none
    | _ => none

end

/-- `serde_json::from_str`-style top level: one value, then only whitespace. -/
def jsonFromStr (s : String) : Option Json :=
  match parseJson (s.length * 2 + 8) s.data with
  | some (j, left) => if (skipWs left).isEmpty then some j else none
  | none => none

/-! ## Deserialization into the schema structs

Model of the `serde`-derived `Deserialize` impls in `src/archive/story.rs`
together with the hand-written impls (`Color`, the three enums) and the
`deserialize_with` helpers.  The derived impls have no
`deny_unknown_fields` attribute, so the serde default applies: an object
entry whose key is not a declared field is skipped; a declared field seen
twice is a `duplicate field` error; a missing declared field is an error
unless the field type is `Option<_>`, which then becomes `None`.
-/

def JDec (α : Type) : Type := Json → Except String α

def countKey (fs : List (String × Json)) (k : String) : Nat :=
  (fs.filter (fun p => p.1 = k)).length

def getKey (fs : List (String × Json)) (k : String) : Option Json :=
  (fs.find? (fun p => p.1 = k)).map (fun p => p.2)

def checkDup (fs : List (String × Json)) (names : List String) : Except String Unit :=
  if names.all (fun n => countKey fs n ≤ 1) then Except.ok ()
  else Except.error "duplicate field"

def reqField (fs : List (String × Json)) (name : String) (dec : JDec α) :
    Except String α :=
  match getKey fs name with
  | some v => dec v
  | none => Except.error ("missing field " ++ name)

def optField (fs : List (String × Json)) (name : String) (dec : JDec α) :
    Except String (Option α) :=
  match getKey fs name with
  | some Json.null => Except.ok none
  | some v => (dec v).map some
  | none => Except.ok none

/-- `null_to_text`: a required field where JSON null becomes `""`. -/
def reqNullToText (fs : List (String × Json)) (name : String) :
    Except String String :=
  match getKey fs name with
  | some Json.null => Except.ok ""
  | some (Json.str s) => Except.ok s
  | some _ => Except.error "invalid type"
  | none => Except.error ("missing field " ++ name)

/-- `null_to_html`: a required field where JSON null becomes `"<p></p>"`. -/
def reqNullToHtml (fs : List (String × Json)) (name : String) :
    Except String String :=
  match getKey fs name with
  | some Json.null => Except.ok "<p></p>"
  | some (Json.str s) => Except.ok s
  | some _ => Except.error "invalid type"
  | none => Except.error ("missing field " ++ name)

def decBool : JDec Bool := fun j =>
  match j with
  | Json.bool b => Except.ok b
  | _ => Except.error "expected bool"

def decStr : JDec String := fun j =>
  match j with
  | Json.str s => Except.ok s
  | _ => Except.error "expected string"

def decI64 : JDec Int := fun j =>
  match j with
  | Json.num n =>
    if -(2 ^ 63) ≤ n ∧ n < 2 ^ 63 then Except.ok n
    else Except.error "i64 out of range"
  | _ => Except.error "expected integer"

def decI32 : JDec Int := fun j =>
  match j with
  | Json.num n =>
    if -(2 ^ 31) ≤ n ∧ n < 2 ^ 31 then Except.ok n
    else Except.error "i32 out of range"
  | _ => Except.error "expected integer"

/-- `string_to_id`: `author.id` accepts a JSON integer or a numeric string. -/
def decIdValue : JDec Int := fun j =>
  match j with
  | Json.num n =>
    if -(2 ^ 63) ≤ n ∧ n < 2 ^ 63 then Except.ok n
    else Except.error "Invalid type for ID value"
  | Json.str s =>
    match parseI64 s with
    | some n => Except.ok n
    | none => Except.error "Could not parse ID string"
  | _ => Except.error "Invalid type for ID value"

def decList (dec : JDec α) : JDec (List α) := fun j =>
  match j with
  | Json.arr xs => xs.mapM dec
  | _ => Except.error "expected array"

/-! Calendar conversion for the RFC 3339 model of chrono's `DateTime<Utc>`
deserializer: day count since the Unix epoch for a civil date
(the standard days-from-civil formula), restricted to the
`YYYY-MM-DDTHH:MM:SSZ` shape, which covers the archive's timestamps. -/

def daysFromCivil (y m d : Int) : Int :=
  let y' := y - (if m ≤ 2 then 1 else 0)
  let era := Int.ediv y' 400
  let yoe := y' - era * 400
  let doy := Int.ediv (153 * (m + (if 2 < m then -3 else 9)) + 2) 5 + d - 1
  let doe := yoe * 365 + Int.ediv yoe 4 - Int.ediv yoe 100 + doy
  era * 146097 + doe - 719468

def digitVal (c : Char) : Option Nat :=
  if c.isDigit then some (c.toNat - 48) else none

def twoDigits (a b : Char) : Option Nat :=
  match digitVal a, digitVal b with
  | some x, some y => some (x * 10 + y)
  | _, _ => none

def parseRfc3339 (s : String) : Option DateTime :=
  match s.data with
  | [y1, y2, y3, y4, '-', m1, m2, '-', d1, d2, 'T',
     h1, h2, ':', i1, i2, ':', s1, s2, 'Z'] =>
    match twoDigits y1 y2, twoDigits y3 y4, twoDigits m1 m2, twoDigits d1 d2,
          twoDigits h1 h2, twoDigits i1 i2, twoDigits s1 s2 with
    | some yh, some yl, some mo, some da, some ho, some mi, some se =>
      let y : Int := yh * 100 + yl
      if 1 ≤ mo ∧ mo ≤ 12 ∧ 1 ≤ da ∧ da ≤ 31 ∧ ho < 24 ∧ mi < 60 ∧ se < 60 then
        some ⟨daysFromCivil y mo da * 86400 + (ho * 3600 + mi * 60 + se : Nat), 0⟩
      else none
    | _, _, _, _, _, _, _ => none
  | _ => none

def decDateTime : JDec DateTime := fun j =>
  match j with
  | Json.str s =>
    match parseRfc3339 s with
    | some dt => Except.ok dt
    | none => Except.error "invalid datetime"
  | _ => Except.error "expected datetime string"

/-! `Color`: the hand-written impl materializes a `serde_json::Value` first;
duplicate keys in a `Value` object collapse with the last occurrence
winning, hence the reversed lookup.  `hex::decode` takes pairs of hex
digits and the result must be exactly three bytes. -/

def hexDecode : Nat → List Char → Option (List Nat)
  | _, [] => some []
  | 0, _ => none
  | fuel + 1, a :: b :: rest =>
    match hexVal a, hexVal b with
    | some x, some y =>
      match hexDecode fuel rest with
      | some bytes => some ((x * 16 + y) :: bytes)
      | none => none
    | _, _ => none
  | _ + 1, [_] => none

def decColor : JDec Color := fun j =>
  let hexText : Option String :=
    match j with
    | Json.obj fs =>
      match (fs.reverse.find? (fun p => p.1 = "hex")).map (fun p => p.2) with
      | some (Json.str s) => some s
      | _ => none
    | _ => none
  match hexText with
  | none => Except.error "Color is missing hex value"
  | some text =>
    match hexDecode text.length text.data with
    | none => Except.error "Color hex has invalid value"
    | some [r, g, b] => Except.ok ⟨r, g, b⟩
    | some _ => Except.error "Color hex has invalid length"

def decCompletionStatus : JDec CompletionStatus := fun j =>
  match j with
  | Json.str s =>
    if s = "cancelled" then Except.ok CompletionStatus.cancelled
    else if s = "complete" then Except.ok CompletionStatus.complete
    else if s = "hiatus" ∨ s = "on hiatus" then Except.ok CompletionStatus.hiatus
    else if s = "incomplete" then Except.ok CompletionStatus.incomplete
    else Except.error "unknown variant"
  | _ => Except.error "expected string"

def decContentRating : JDec ContentRating := fun j =>
  match j with
  | Json.str s =>
    if s = "everyone" then Except.ok ContentRating.everyone
    else if s = "mature" then Except.ok ContentRating.mature
    else if s = "teen" then Except.ok ContentRating.teen
    else Except.error "unknown variant"
  | _ => Except.error "expected string"

def decStatus : JDec Status := fun j =>
  match j with
  | Json.str s =>
    if s = "approve_queue" then Except.ok Status.approveQueue
    else if s = "not_visible" then Except.ok Status.notVisible
    else if s = "post_queue" then Except.ok Status.postQueue
    else if s = "visible" then Except.ok Status.visible
    else Except.error "unknown variant"
  | _ => Except.error "expected string"

def archiveFields : List String :=
  ["date_checked", "date_created", "date_fetched", "date_updated", "path"]

def decArchive : JDec Archive := fun j =>
  match j with
  | Json.obj fs => do
    checkDup fs archiveFields
    let dc ← optField fs "date_checked" decDateTime
    let dcr ← optField fs "date_created" decDateTime
    let df ← optField fs "date_fetched" decDateTime
    let du ← optField fs "date_updated" decDateTime
    let path ← reqField fs "path" decStr
    Except.ok ⟨dc, dcr, df, du, path⟩
  | _ => Except.error "expected struct Archive"

def avatarFields : List String :=
  ["16", "32", "48", "64", "96", "128", "160", "192", "256", "320", "384", "512"]

def decAvatar : JDec Avatar := fun j =>
  match j with
  | Json.obj fs => do
    checkDup fs avatarFields
    let a16 ← optField fs "16" decStr
    let a32 ← optField fs "32" decStr
    let a48 ← optField fs "48" decStr
    let a64 ← optField fs "64" decStr
    let a96 ← optField fs "96" decStr
    let a128 ← optField fs "128" decStr
    let a160 ← optField fs "160" decStr
    let a192 ← optField fs "192" decStr
    let a256 ← optField fs "256" decStr
    let a320 ← optField fs "320" decStr
    let a384 ← optField fs "384" decStr
    let a512 ← optField fs "512" decStr
    Except.ok ⟨a16, a32, a48, a64, a96, a128, a160, a192, a256, a320, a384, a512⟩
  | _ => Except.error "expected struct Avatar"

def authorFields : List String :=
  ["avatar", "bio_html", "date_joined", "id", "name",
   "num_blog_posts", "num_followers", "num_stories", "url"]

def decAuthor : JDec Author := fun j =>
  match j with
  | Json.obj fs => do
    checkDup fs authorFields
    let avatar ← optField fs "avatar" decAvatar
    let bio ← optField fs "bio_html" decStr
    let joined ← optField fs "date_joined" decDateTime
    let id ← reqField fs "id" decIdValue
    let name ← reqField fs "name" decStr
    let nbp ← optField fs "num_blog_posts" decI32
    let nf ← optField fs "num_followers" decI32
    let ns ← optField fs "num_stories" decI32
    let url ← reqField fs "url" decStr
    Except.ok ⟨avatar, bio, joined, id, name, nbp, nf, ns, url⟩
  | _ => Except.error "expected struct Author"

def chapterFields : List String :=
  ["chapter_number", "date_modified", "date_published", "id",
   "num_views", "num_words", "published", "title", "url"]

def decChapter : JDec Chapter := fun j =>
  match j with
  | Json.obj fs => do
    checkDup fs chapterFields
    let cn ← reqField fs "chapter_number" decI32
    let dm ← optField fs "date_modified" decDateTime
    let dp ← optField fs "date_published" decDateTime
    let id ← reqField fs "id" decI64
    let nv ← reqField fs "num_views" decI32
    let nw ← reqField fs "num_words" decI32
    let pub ← reqField fs "published" decBool
    let title ← reqNullToText fs "title"
    let url ← reqField fs "url" decStr
    Except.ok ⟨cn, dm, dp, id, nv, nw, pub, title, url⟩
  | _ => Except.error "expected struct Chapter"

def coverImageFields : List String :=
  ["full", "large", "medium", "thumbnail"]

def decCoverImage : JDec CoverImage := fun j =>
  match j with
  | Json.obj fs => do
    checkDup fs coverImageFields
    let full ← reqField fs "full" decStr
    let large ← reqField fs "large" decStr
    let medium ← reqField fs "medium" decStr
    let thumb ← reqField fs "thumbnail" decStr
    Except.ok ⟨full, large, medium, thumb⟩
  | _ => Except.error "expected struct CoverImage"

def tagFields : List String :=
  ["id", "name", "old_id", "type", "url"]

def decTag : JDec Tag := fun j =>
  match j with
  | Json.obj fs => do
    checkDup fs tagFields
    let id ← reqField fs "id" decI64
    let name ← reqField fs "name" decStr
    let oldId ← reqField fs "old_id" decStr
    let kind ← reqField fs "type" decStr
    let url ← reqField fs "url" decStr
    Except.ok ⟨id, name, oldId, kind, url⟩
  | _ => Except.error "expected struct Tag"

def storyFields : List String :=
  ["archive", "author", "chapters", "color", "completion_status",
   "content_rating", "cover_image", "date_modified", "date_published",
   "date_updated", "description_html", "id", "num_chapters", "num_comments",
   "num_dislikes", "num_likes", "num_views", "num_words", "prequel",
   "published", "rating", "short_description", "status", "submitted",
   "tags", "title", "total_num_views", "url"]

def decStory : JDec Story := fun j =>
  match j with
  | Json.obj fs => do
    checkDup fs storyFields
    let archive ← reqField fs "archive" decArchive
    let author ← reqField fs "author" decAuthor
    let chapters ← reqField fs "chapters" (decList decChapter)
    let color ← optField fs "color" decColor
    let cs ← reqField fs "completion_status" decCompletionStatus
    let cr ← reqField fs "content_rating" decContentRating
    let cover ← optField fs "cover_image" decCoverImage
    let dm ← optField fs "date_modified" decDateTime
    let dp ← optField fs "date_published" decDateTime
    let du ← optField fs "date_updated" decDateTime
    let dh ← reqNullToHtml fs "description_html"
    let id ← reqField fs "id" decI64
    let nch ← reqField fs "num_chapters" decI32
    let nco ← reqField fs "num_comments" decI32
    let ndi ← reqField fs "num_dislikes" decI32
    let nli ← reqField fs "num_likes" decI32
    let nvi ← reqField fs "num_views" decI32
    let nwo ← reqField fs "num_words" decI32
    let prequel ← optField fs "prequel" decI64
    let pub ← reqField fs "published" decBool
    let rating ← reqField fs "rating" decI32
    let sd ← reqNullToText fs "short_description"
    let status ← reqField fs "status" decStatus
    let sub ← reqField fs "submitted" decBool
    let tags ← reqField fs "tags" (decList decTag)
    let title ← reqNullToText fs "title"
    let tnv ← reqField fs "total_num_views" decI32
    let url ← reqField fs "url" decStr
    Except.ok
      ⟨archive, author, chapters, color, cs, cr, cover, dm, dp, du, dh, id,
       nch, nco, ndi, nli, nvi, nwo, prequel, pub, rating, sd, status, sub,
       tags, title, tnv, url⟩
  | _ => Except.error "expected struct Story"

/-! ## One index line

`deserialize` from `src/archive/parser.rs`: split the line at the first
colon, trim the `TRIM` set (`"`, `,`, space, tab, newline, carriage
return) from both pieces, parse the JSON object into a `Story`, parse the
key as an `i64`, and require that the key equals the story's `id`.
-/

def trimChars : List Char :=
  ['"', ',', ' ', '\t', '\n', '\r']

/-- Rust `str::trim_matches` with the `TRIM` character set. -/
def trimMatches (s : List Char) : List Char :=
  ((s.dropWhile (trimChars.contains ·)).reverse.dropWhile
    (trimChars.contains ·)).reverse

/-- Rust `str::splitn(2, ':')`: the piece before the first colon and the
remainder after it, or the whole string when there is no colon. -/
def splitn2Colon (s : List Char) : List (List Char) :=
  match s.dropWhile (· ≠ ':') with
  | ':' :: after => [s.takeWhile (· ≠ ':'), after]
  | _ => [s]

def deserializeLine (line : String) : Except String Story :=
  match (splitn2Colon line.data).map trimMatches with
  | [skey, json] => do
    let story ←
      match jsonFromStr ⟨json⟩ with
      | some j => decStory j
      | none => Except.error "invalid JSON"
    let key ←
      match parseI64 ⟨skey⟩ with
      | some k => Except.ok k
      | none => Except.error "Invalid line key"
    if key ≠ story.id then Except.error "Line key mismatch"
    else Except.ok story
  | _ => Except.error "Invalid line format"

/-! ## Index load: sort, dedupe, validate

The reducer stage of `spawn_parser` in `src/archive/parser.rs`: collect the
decoded stories, sort by id (`sort_by_key` is a stable sort), remove
consecutive elements with equal ids (`dedup_by_key` compares each element
with the last retained one), and fail when the length shrank.
-/

def dedupByKey (key : α → Int) : List α → List α
  | [] => []
  | [a] => [a]
  | a :: b :: rest =>
    if key b = key a then dedupByKey key (a :: rest)
    else a :: dedupByKey key (b :: rest)
termination_by l => l.length

def reduceStories (stories : List Story) : Except String (List Story) :=
  let count := stories.length
  let sorted := stories.mergeSort (fun a b => a.id ≤ b.id)
  let deduped := dedupByKey (fun s => s.id) sorted
  if count ≠ deduped.length then Except.error "Found duplicate story"
  else Except.ok deduped

/-- The whole of `parse` + `spawn_parser` flattened to a sequential
function: lines whose byte length is 1 accumulate into the wrapper
string (checked against `"{}"` after the read loop), all other lines are
deserialized, then the reducer sorts/dedupes/validates.  Channel plumbing
and threading are erased; the value/error outcome is preserved. -/
def parseIndex (lines : List String) : Except String (List Story) :=
  let wrappers := ((lines.filter (fun l => l.utf8ByteSize = 1)).map String.data).flatten
  if wrappers ≠ ['{', '}'] then Except.error "Invalid file structure"
  else do
    let stories ← (lines.filter (fun l => l.utf8ByteSize ≠ 1)).mapM deserializeLine
    reduceStories stories

/-! ## Binary search and `Fetcher::fetch`

`slice::binary_search_by_key` from the Rust standard library, as used by
`Fetcher::fetch` (`src/archive/fetcher.rs`) and by the predicate built in
`Searcher::parse` (`search/src/lib.rs`).  The element access is modelled
with a defaulted lookup; the loop maintains `mid < right ≤ length`, so
the default is never consulted by `fetch`.  Only the `Ok`/`Err`
distinction of the Rust result is consumed by the callers, hence
`Option Nat`.
-/

def bsGo (f : Nat → Int) (key : Int) : Nat → Nat → Nat → Option Nat
  | 0, _, _ => none
  | fuel + 1, left, right =>
    if left < right then
      let size := right - left
      let mid := left + size / 2
      if f mid < key then bsGo f key fuel (mid + 1) right
      else if key < f mid then bsGo f key fuel left mid
      else some mid
    else none

/-- The interval `right - left` shrinks at every iteration, so a fuel of
`right - left + 1` never runs out. -/
def bsLoop (f : Nat → Int) (key : Int) (left right : Nat) : Option Nat :=
  bsGo f key (right - left + 1) left right

def idAt (index : List Story) (i : Nat) : Int :=
  ((index.get? i).map Story.id).getD 0

def fetch (index : List Story) (key : Int) : Option Story :=
  match bsLoop (idAt index) key 0 index.length with
  | some i => index.get? i
  | none => none

/-! ## Query language

Embedding of `query/src/parser.rs` (nom combinators) and
`query/src/optimizer.rs`.  Parser results carry the unconsumed input;
`NomErr.soft` is nom's recoverable `Err::Error` (an `alt` tries its next
branch) and `NomErr.hard` is `Err::Failure` (fatal, propagated), which
`item` raises when `optimize` rejects a leaf.

Two pieces of the leaf compiler live in external crates and are modelled
at their interfaces:

* the `regex` crate: `RegexBuilder::new(&escape(value))` with
  `case_insensitive(true)` and `size_limit(1_048_576)` is abstracted as a
  `build : String → Option CompiledRegex` argument applied to the escaped
  value, `none` modelling a pattern whose compiled program exceeds the
  1 MiB cap; `escape` itself (a repository-visible transformation) is
  translated from the crate's meta-character set;
* `chrono_english::parse_date_string(value, Utc::now(), Dialect::Uk)`:
  `parseDateString` models it on the forms exercised here — `"now"`
  yields the base instant unchanged, and an ISO `YYYY-MM-DD` date yields
  midnight UTC of that day independent of the base instant.  The base
  instant (the only occurrence of `Utc::now()` in the query path) is an
  explicit argument threaded to the date leaves as the function
  `fun v => parseDateString v now`.
-/

inductive NomErr where
  | soft
  | hard
deriving DecidableEq, Repr

def PRes (α : Type) : Type := Except NomErr (List Char × α)

def Filter : Type := Story → Bool

inductive Source where
  | intFn (f : Story → Int)
  | strFn (f : Story → String)
  | dtuFn (f : Story → Option DateTime)

inductive Operator where
  | exact
  | fuzzy
  | lessThan
  | moreThan
deriving DecidableEq, Repr

structure CompiledRegex where
  isMatch : String → Bool

def regexMeta : List Char :=
  ['\\', '.', '+', '*', '?', '(', ')', '|', '[', ']',
   '{', '}', '^', '$', '#', '&', '-', '~']

/-- `regex::escape`: backslash-escape every meta character. -/
def escapeRegex (s : String) : String :=
  ⟨s.data.foldr
    (fun c acc => if regexMeta.contains c then '\\' :: c :: acc else c :: acc)
    []⟩

def parseDateString (value : String) (now : DateTime) : Option DateTime :=
  if value = "now" then some now
  else
    match value.data with
    | [y1, y2, y3, y4, '-', m1, m2, '-', d1, d2] =>
      match twoDigits y1 y2, twoDigits y3 y4, twoDigits m1 m2, twoDigits d1 d2 with
      | some yh, some yl, some mo, some da =>
        if 1 ≤ mo ∧ mo ≤ 12 ∧ 1 ≤ da ∧ da ≤ 31 then
          some ⟨daysFromCivil (yh * 100 + yl) mo da * 86400, 0⟩
        else none
      | _, _, _, _ => none
    | _ => none

def strfn (build : String → Option CompiledRegex) (f : Story → String)
    (op : Operator) (value : String) : Except String Filter :=
  let exact := value
  match build (escapeRegex value) with
  | none => Except.error "Invalid value for fuzzy match"
  | some regex =>
    match op with
    | Operator.exact => Except.ok (fun s => f s == exact)
    | Operator.fuzzy => Except.ok (fun s => regex.isMatch (f s))
    | _ => Except.error "Invalid operation for text type"

def intfn (f : Story → Int) (op : Operator) (value : String) :
    Except String Filter :=
  match parseI64 value with
  | none => Except.error "Invalid value for number type"
  | some v =>
    match op with
    | Operator.exact => Except.ok (fun s => f s == v)
    | Operator.fuzzy => Except.ok (fun s => f s == v)
    | Operator.lessThan => Except.ok (fun s => decide (f s < v))
    | Operator.moreThan => Except.ok (fun s => decide (v < f s))

def dtufn (pds : String → Option DateTime) (f : Story → Option DateTime)
    (op : Operator) (value : String) : Except String Filter :=
  match pds value with
  | none => Except.error "Invalid value for date type"
  | some v =>
    let date := dtDate v
    match op with
    | Operator.exact =>
      Except.ok (fun s => match f s with
        | some dt => dt == v
        | none => false)
    | Operator.fuzzy =>
      Except.ok (fun s => match f s with
        | some dt => dtDate dt == date
        | none => false)
    | Operator.lessThan =>
      Except.ok (fun s => match f s with
        | some dt => dtLt dt v
        | none => false)
    | Operator.moreThan =>
      Except.ok (fun s => match f s with
        | some dt => dtLt v dt
        | none => false)

def optimize (build : String → Option CompiledRegex)
    (pds : String → Option DateTime) (src : Source) (op : Operator)
    (value : String) : Except String Filter :=
  match src with
  | Source.strFn f => strfn build f op value
  | Source.intFn f => intfn f op value
  | Source.dtuFn f => dtufn pds f op value

/-- nom `space0`: spaces and tabs. -/
def space0 (cs : List Char) : List Char :=
  cs.dropWhile (fun c => c = ' ' || c = '\t')

/-- The field table of `source`, flattened in `alt` order: the `story`
group, then the `author` group, then the `archive` group, each in its
source order.  Committed choice over `preceded(tag(..), ..)` branches
makes the nested `alt`s equivalent to this flat first-match list. -/
def sourceFields : List (String × Source) :=
  [("id", Source.intFn (fun s => s.id)),
   ("story", Source.strFn (fun s => s.title)),
   ("title", Source.strFn (fun s => s.title)),
   ("description", Source.strFn (fun s => s.description_html)),
   ("short description", Source.strFn (fun s => s.short_description)),
   ("url", Source.strFn (fun s => s.url)),
   ("modified", Source.dtuFn (fun s => s.date_modified)),
   ("published", Source.dtuFn (fun s => s.date_published)),
   ("updated", Source.dtuFn (fun s => s.date_updated)),
   ("chapters", Source.intFn (fun s => s.num_chapters)),
   ("comments", Source.intFn (fun s => s.num_comments)),
   ("dislikes", Source.intFn (fun s => s.num_dislikes)),
   ("likes", Source.intFn (fun s => s.num_likes)),
   ("total views", Source.intFn (fun s => s.total_num_views)),
   ("views", Source.intFn (fun s => s.num_views)),
   ("words", Source.intFn (fun s => s.num_words)),
   ("author", Source.strFn (fun s => s.author.name)),
   ("author name", Source.strFn (fun s => s.author.name)),
   ("author id", Source.intFn (fun s => s.author.id)),
   ("author joined", Source.dtuFn (fun s => s.author.date_joined)),
   ("path", Source.strFn (fun s => s.archive.path)),
   ("archive", Source.strFn (fun s => s.archive.path)),
   ("archive path", Source.strFn (fun s => s.archive.path)),
   ("entry checked", Source.dtuFn (fun s => s.archive.date_checked)),
   ("entry created", Source.dtuFn (fun s => s.archive.date_created)),
   ("entry fetched", Source.dtuFn (fun s => s.archive.date_fetched)),
   ("entry updated", Source.dtuFn (fun s => s.archive.date_updated))]

def tryFields : List (String × Source) → List Char → PRes Source
  | [], _ => Except.error NomErr.soft
  | (t, src) :: rest, cs =>
    if t.data.isPrefixOf cs then Except.ok (cs.drop t.data.length, src)
    else tryFields rest cs

def source (cs : List Char) : PRes Source :=
  tryFields sourceFields (space0 cs)

def operator (cs : List Char) : PRes Operator :=
  match space0 cs with
  | '=' :: rest => Except.ok (rest, Operator.exact)
  | ':' :: rest => Except.ok (rest, Operator.fuzzy)
  | '<' :: rest => Except.ok (rest, Operator.lessThan)
  | '>' :: rest => Except.ok (rest, Operator.moreThan)
  | _ => Except.error NomErr.soft

/-- One pass of Rust `str::replace`: replace non-overlapping occurrences
of `pat` left to right.  Fueled by the input length (every step consumes
at least one character; the patterns used are non-empty). -/
def replaceAllGo (pat rep : List Char) : Nat → List Char → List Char
  | _, [] => []
  | 0, l => l
  | fuel + 1, c :: rest =>
    if pat.isPrefixOf (c :: rest) then
      rep ++ replaceAllGo pat rep fuel ((c :: rest).drop pat.length)
    else c :: replaceAllGo pat rep fuel rest

def replaceAll (pat rep s : List Char) : List Char :=
  replaceAllGo pat rep s.length s

/-- Rust `str::trim` (the whitespace appearing here is ASCII). -/
def rustTrim (s : List Char) : List Char :=
  let ws : Char → Bool := fun c =>
    c = ' ' || c = '\t' || c = '\n' || c = '\r' || c = '\x0b' || c = '\x0c'
  ((s.dropWhile ws).reverse.dropWhile ws).reverse

/-- nom `escaped(none_of("),|\\"), '\\', one_of("),|\\"))`: consume normal
characters and escape pairs; stop (successfully, possibly consuming
nothing) at an unescaped delimiter; fail on a bad or dangling escape.
Returns (unconsumed input, consumed prefix). -/
def evalue : List Char → PRes (List Char)
  | [] => Except.ok ([], [])
  | c :: rest =>
    if c = '\\' then
      match rest with
      | e :: rest' =>
        if e = ')' || e = ',' || e = '|' || e = '\\' then
          match evalue rest' with
          | Except.ok (left, consumed) => Except.ok (left, c :: e :: consumed)
          | Except.error err => Except.error err
        else Except.error NomErr.soft
      | [] => Except.error NomErr.soft
    else if c = ')' || c = ',' || c = '|' then Except.ok (c :: rest, [])
    else
      match evalue rest with
      | Except.ok (left, consumed) => Except.ok (left, c :: consumed)
      | Except.error err => Except.error err

/-- The four escape replacements, applied in source order. -/
def unescape (s : List Char) : List Char :=
  replaceAll ['\\', '\\'] ['\\']
    (replaceAll ['\\', '|'] ['|']
      (replaceAll ['\\', ','] [',']
        (replaceAll ['\\', ')'] [')'] s)))

def target (cs : List Char) : PRes String :=
  match evalue (space0 cs) with
  | Except.ok (left, consumed) =>
    Except.ok (left, String.mk (unescape (rustTrim consumed)))
  | Except.error e => Except.error e

def item (build : String → Option CompiledRegex)
    (pds : String → Option DateTime) (cs : List Char) : PRes Filter :=
  match source cs with
  | Except.error e => Except.error e
  | Except.ok (cs1, src) =>
    match operator cs1 with
    | Except.error e => Except.error e
    | Except.ok (cs2, op) =>
      match target cs2 with
      | Except.error e => Except.error e
      | Except.ok (left, value) =>
        match optimize build pds src op value with
        | Except.ok filter => Except.ok (left, filter)
        | Except.error _ => Except.error NomErr.hard

mutual

def ofunc (build : String → Option CompiledRegex)
    (pds : String → Option DateTime) : Nat → List Char → PRes Filter
  | 0, _ => Except.error NomErr.hard
  | fuel + 1, cs =>
    match olist build pds fuel cs with
    | Except.error e => Except.error e
    | Except.ok (left, [f]) => Except.ok (left, f)
    | Except.ok (left, fs) =>
      Except.ok (left, fun story => fs.any (fun f => f story))
termination_by structural fuel cs => fuel

def olist (build : String → Option CompiledRegex)
    (pds : String → Option DateTime) : Nat → List Char → PRes (List Filter)
  | 0, _ => Except.error NomErr.hard
  | fuel + 1, cs =>
    match afunc build pds fuel cs with
    | Except.error e => Except.error e
    | Except.ok (cs1, f) =>
      match space0 cs1 with
      | '|' :: cs2 =>
        match olist build pds fuel cs2 with
        | Except.ok (left, fs) => Except.ok (left, f :: fs)
        | Except.error NomErr.hard => Except.error NomErr.hard
        | Except.error NomErr.soft => Except.ok (cs1, [f])
      | _ => Except.ok (cs1, [f])
termination_by structural fuel cs => fuel

def afunc (build : String → Option CompiledRegex)
    (pds : String → Option DateTime) : Nat → List Char → PRes Filter
  | 0, _ => Except.error NomErr.hard
  | fuel + 1, cs =>
    match alist build pds fuel cs with
    | Except.error e => Except.error e
    | Except.ok (left, [f]) => Except.ok (left, f)
    | Except.ok (left, fs) =>
      Except.ok (left, fun story => fs.all (fun f => f story))
termination_by structural fuel cs => fuel

def alist (build : String → Option CompiledRegex)
    (pds : String → Option DateTime) : Nat → List Char → PRes (List Filter)
  | 0, _ => Except.error NomErr.hard
  | fuel + 1, cs =>
    match nlist build pds fuel cs with
    | Except.error e => Except.error e
    | Except.ok (cs1, f) =>
      match space0 cs1 with
      | ',' :: cs2 =>
        match alist build pds fuel cs2 with
        | Except.ok (left, fs) => Except.ok (left, f :: fs)
        | Except.error NomErr.hard => Except.error NomErr.hard
        | Except.error NomErr.soft => Except.ok (cs1, [f])
      | _ => Except.ok (cs1, [f])
termination_by structural fuel cs => fuel

def nlist (build : String → Option CompiledRegex)
    (pds : String → Option DateTime) : Nat → List Char → PRes Filter
  | 0, _ => Except.error NomErr.hard
  | fuel + 1, cs =>
    let cs' := space0 cs
    let negated : PRes Filter :=
      match cs' with
      | '!' :: rest =>
        match parens build pds fuel rest with
        | Except.ok (left, f) => Except.ok (left, fun s => ! f s)
        | Except.error e => Except.error e
      | _ => Except.error NomErr.soft
    match negated with
    | Except.ok r => Except.ok r
    | Except.error NomErr.hard => Except.error NomErr.hard
    | Except.error NomErr.soft => parens build pds fuel cs'
termination_by structural fuel cs => fuel

def parens (build : String → Option CompiledRegex)
    (pds : String → Option DateTime) : Nat → List Char → PRes Filter
  | 0, _ => Except.error NomErr.hard
  | fuel + 1, cs =>
    let group : PRes Filter :=
      match space0 cs with
      | '(' :: rest =>
        match ofunc build pds fuel (space0 rest) with
        | Except.ok (left, f) =>
          match space0 left with
          | ')' :: left' => Except.ok (left', f)
          | _ => Except.error NomErr.soft
        | Except.error e => Except.error e
      | _ => Except.error NomErr.soft
    match group with
    | Except.ok r => Except.ok r
    | Except.error NomErr.hard => Except.error NomErr.hard
    | Except.error NomErr.soft => item build pds cs
termination_by structural fuel cs => fuel

end

/-- `complete` + `parse`: trim the query, run `ofunc`, require end of
input; every failure becomes a `QueryError`. -/
def parseQueryPds (build : String → Option CompiledRegex)
    (pds : String → Option DateTime) (q : String) : Except String Filter :=
  let cs := rustTrim q.data
  match ofunc build pds (16 * (cs.length + 1)) cs with
  | Except.ok ([], f) => Except.ok f
  | Except.ok (_, _) => Except.error "parse error"
  | Except.error _ => Except.error "parse error"

def parseQuery (build : String → Option CompiledRegex) (now : DateTime)
    (q : String) : Except String Filter :=
  parseQueryPds build (fun v => parseDateString v now) q

/-- `Fetcher::filter`: a parallel filter whose collected output preserves
the table's id order (rayon's indexed `collect`). -/
def filterStories (index : List Story) (f : Filter) : List Story :=
  index.filter f

/-- Parse-then-filter, the composition the shell runs for one query;
`none` when the query is rejected. -/
def runQuery (build : String → Option CompiledRegex) (now : DateTime)
    (index : List Story) (q : String) : Option (List Story) :=
  match parseQuery build now q with
  | Except.ok f => some (filterStories index f)
  | Except.error _ => none

/-! ## Searcher (`search/src/lib.rs`)

The tantivy pieces are modelled at their interfaces: the per-document
scores of one query are an input list `scored` of `(sid, score)` pairs
(one per indexed document), scores as rationals standing in for the
crate's `f32` relevance values (only compared, never computed with), and
the `TopDocs::with_limit(32)` collector is modelled from its contract:
the limit highest-scoring documents, in descending score order.
`Searcher::search` maps each hit to its stored `sid`;
`Searcher::parse` keeps ids scoring strictly above `10f32`, sorts them
ascending, and closes over a `binary_search` membership test.
-/

def topDocs (limit : Nat) (scored : List (Int × ℚ)) : List (Int × ℚ) :=
  (scored.mergeSort (fun a b => b.2 ≤ a.2)).take limit

def searchHits (scored : List (Int × ℚ)) : List (Int × ℚ) :=
  topDocs 32 scored

def searchSids (scored : List (Int × ℚ)) : List Int :=
  (((searchHits scored).filter (fun p => (10 : ℚ) < p.2)).map
    (fun p => p.1)).mergeSort (fun a b => a ≤ b)

def searchPred (scored : List (Int × ℚ)) : Filter :=
  let sids := searchSids scored
  fun story =>
    (bsLoop (fun i => (sids.get? i).getD 0) story.id 0 sids.length).isSome

/-! ## Interner and load-time dedup (`src/archive/interner.rs`,
`src/archive/parser.rs`)

`Arc<T>` is modelled as a value plus an allocation number; reference
equality is equality of the allocation number, and cloning an `Arc`
preserves it.  The `HashSet` store keeps at most one element per value:
`get` returns the stored arc equal to the probe, `insert` keeps the
already-stored element when an equal one is present.  `set` always
creates a fresh allocation (taking the next number) and returns it, as
`Arc::new` does, whether or not the insert kept it.
-/

structure Arc (α : Type) where
  ptr : Nat
  val : α
deriving DecidableEq, Repr

structure IState (α : Type) where
  store : List (Arc α)
  next : Nat

def iget [DecidableEq α] (s : IState α) (v : α) : Option (Arc α) :=
  s.store.find? (fun a => decide (a.val = v))

def iset [DecidableEq α] (s : IState α) (v : α) : Arc α × IState α :=
  let arc : Arc α := ⟨s.next, v⟩
  let store :=
    if s.store.any (fun a => decide (a.val = v)) then s.store
    else s.store ++ [arc]
  (arc, ⟨store, s.next + 1⟩)

def intern [DecidableEq α] (s : IState α) (v : α) : Arc α × IState α :=
  match iget s v with
  | some a => (a, s)
  | none => iset s v

/-- The story records as the `dedup` pass of `src/archive/parser.rs` sees
them: an author handle and a list of tag handles. -/
structure StoryArcs where
  author : Arc Author
  tags : List (Arc Tag)
deriving DecidableEq

/-- First `dedup` loop: replace each story's author arc with the stored
one when an equal author was seen, otherwise store this story's arc. -/
def dedupAuthors : List (Arc Author) → List StoryArcs → List StoryArcs
  | _, [] => []
  | seen, st :: rest =>
    match seen.find? (fun a => decide (a.val = st.author.val)) with
    | some a => { st with author := a } :: dedupAuthors seen rest
    | none => st :: dedupAuthors (seen ++ [st.author]) rest

def insertTagIfAbsent (seen : List (Arc Tag)) (t : Arc Tag) : List (Arc Tag) :=
  if seen.any (fun a => decide (a.val = t.val)) then seen else seen ++ [t]

/-- Second `dedup` loop: extend the seen set with this story's unseen
tags, then map every tag through a lookup in the extended set
(`filter_map` in the source; the lookup cannot miss after the extend). -/
def dedupTags : List (Arc Tag) → List StoryArcs → List StoryArcs
  | _, [] => []
  | seen, st :: rest =>
    let unseen :=
      st.tags.filter (fun t => ! seen.any (fun a => decide (a.val = t.val)))
    let seen' := unseen.foldl insertTagIfAbsent seen
    let tags' :=
      st.tags.filterMap (fun t => seen'.find? (fun a => decide (a.val = t.val)))
    { st with tags := tags' } :: dedupTags seen' rest

def dedup (stories : List StoryArcs) : List StoryArcs :=
  dedupTags [] (dedupAuthors [] stories)

/-! ## Full-text index build: one story's document

The per-story body of `Searcher::make_index` (and the identical loop in
the CLI's `load_index`): iterate the nested archive's entries, skip names
not ending in `.html`, and `read_to_string(..).unwrap()` each remaining
entry — strict UTF-8 validation where a failure is an unwrap panic,
modelled as `none`; on success the document holds the decoded texts in
entry order.
-/

def utf8Cont (b : Nat) : Bool :=
  decide (0x80 ≤ b ∧ b ≤ 0xBF)

def utf8DecodeGo : Nat → List Nat → Option (List Char)
  | _, [] => some []
  | 0, _ :: _ => none
  | fuel + 1, b :: rest =>
    if b < 0x80 then
      (utf8DecodeGo fuel rest).map (fun cs => Char.ofNat b :: cs)
    else if b < 0xC2 then none
    else if b ≤ 0xDF then
      match rest with
      | c1 :: rest' =>
        if utf8Cont c1 then
          (utf8DecodeGo fuel rest').map
            (fun cs => Char.ofNat ((b - 0xC0) * 0x40 + (c1 - 0x80)) :: cs)
        else none
      | [] => none
    else if b ≤ 0xEF then
      match rest with
      | c1 :: c2 :: rest' =>
        let lo1 := if b = 0xE0 then 0xA0 else 0x80
        let hi1 := if b = 0xED then 0x9F else 0xBF
        if lo1 ≤ c1 ∧ c1 ≤ hi1 ∧ utf8Cont c2 then
          (utf8DecodeGo fuel rest').map
            (fun cs =>
              Char.ofNat (((b - 0xE0) * 0x40 + (c1 - 0x80)) * 0x40 + (c2 - 0x80))
                :: cs)
        else none
      | _ => none
    else if b ≤ 0xF4 then
      match rest with
      | c1 :: c2 :: c3 :: rest' =>
        let lo1 := if b = 0xF0 then 0x90 else 0x80
        let hi1 := if b = 0xF4 then 0x8F else 0xBF
        if lo1 ≤ c1 ∧ c1 ≤ hi1 ∧ utf8Cont c2 ∧ utf8Cont c3 then
          (utf8DecodeGo fuel rest').map
            (fun cs =>
              Char.ofNat
                ((((b - 0xF0) * 0x40 + (c1 - 0x80)) * 0x40 + (c2 - 0x80)) * 0x40
                  + (c3 - 0x80)) :: cs)
        else none
      | _ => none
    else none

/-- Every step consumes at least one byte, so a fuel equal to the byte
count never runs out. -/
def utf8Decode (bytes : List Nat) : Option (List Char) :=
  utf8DecodeGo bytes.length bytes

structure Entry where
  name : String
  bytes : List Nat
deriving DecidableEq

/-- The texts added to one story's document, or `none` when the loop
panics on an undecodable `.html` entry. -/
def buildDocument : List Entry → Option (List String)
  | [] => some []
  | e :: rest =>
    if ! ".html".data.isSuffixOf e.name.data then buildDocument rest
    else
      match utf8Decode e.bytes with
      | none => none
      | some cs => (buildDocument rest).map (fun ds => String.mk cs :: ds)

/-! ## Concrete fixtures

Inputs used by the counterexamples and witnesses below.
-/

/-- A regex builder whose every compile succeeds (the match function is
irrelevant: no statement below exercises fuzzy string matching). -/
def buildAlways : String → Option CompiledRegex :=
  fun _ => some ⟨fun _ => false⟩

/-- A regex builder whose every compile fails, modelling escaped patterns
whose compiled program exceeds the 1 MiB `size_limit`. -/
def buildFail : String → Option CompiledRegex :=
  fun _ => none

def now0 : DateTime := ⟨0, 0⟩

def baseAuthor : Author :=
  ⟨none, none, none, 12345, "Fluttershy", none, none, none, "u"⟩

def baseArchive : Archive :=
  ⟨none, none, none, none, "epub/7.epub"⟩

def mkStory (id : Int) : Story :=
  ⟨baseArchive, baseAuthor, [], none, CompletionStatus.incomplete,
   ContentRating.everyone, none, none, none, none, "<p></p>", id,
   0, 0, 0, 0, 0, 0, none, true, 0, "", Status.visible, true, [],
   "", 0, "u"⟩

/-- A story whose `date_published` is five seconds past the epoch. -/
def dateStory : Story :=
  { mkStory 1 with date_published := some ⟨5, 0⟩ }

/-- A sorted three-story table. -/
def tableFx : List Story := [mkStory 2, mkStory 4, mkStory 9]

/-- An index line whose JSON object carries every required `Story` field
plus one field (`mysterious_extra`) that is not declared anywhere in the
schema. -/
def cexLine : String :=
  "\"7\": \x7b\"archive\": \x7b\"path\": \"epub/7.epub\"\x7d, " ++
  "\"author\": \x7b\"id\": \"12345\", \"name\": \"Fluttershy\", \"url\": \"a\"\x7d, " ++
  "\"chapters\": [], \"color\": \x7b\"hex\": \"aabbcc\"\x7d, " ++
  "\"completion_status\": \"on hiatus\", \"content_rating\": \"everyone\", " ++
  "\"date_modified\": null, \"date_published\": \"2015-06-01T10:20:30Z\", " ++
  "\"description_html\": null, \"id\": 7, " ++
  "\"num_chapters\": 2, \"num_comments\": 3, \"num_dislikes\": 4, " ++
  "\"num_likes\": 5, \"num_views\": 6, \"num_words\": 8, " ++
  "\"published\": true, \"rating\": 9, \"short_description\": null, " ++
  "\"status\": \"visible\", \"submitted\": false, \"tags\": [], " ++
  "\"title\": \"Friendship is Magic\", \"total_num_views\": 10, \"url\": \"u\", " ++
  "\"mysterious_extra\": 42\x7d,"

/-- The same line without the unknown field. -/
def okLine : String :=
  "\"7\": \x7b\"archive\": \x7b\"path\": \"epub/7.epub\"\x7d, " ++
  "\"author\": \x7b\"id\": \"12345\", \"name\": \"Fluttershy\", \"url\": \"a\"\x7d, " ++
  "\"chapters\": [], \"color\": \x7b\"hex\": \"aabbcc\"\x7d, " ++
  "\"completion_status\": \"on hiatus\", \"content_rating\": \"everyone\", " ++
  "\"date_modified\": null, \"date_published\": \"2015-06-01T10:20:30Z\", " ++
  "\"description_html\": null, \"id\": 7, " ++
  "\"num_chapters\": 2, \"num_comments\": 3, \"num_dislikes\": 4, " ++
  "\"num_likes\": 5, \"num_views\": 6, \"num_words\": 8, " ++
  "\"published\": true, \"rating\": 9, \"short_description\": null, " ++
  "\"status\": \"visible\", \"submitted\": false, \"tags\": [], " ++
  "\"title\": \"Friendship is Magic\", \"total_num_views\": 10, \"url\": \"u\"\x7d,"

/-- An inner archive whose only entry is named `.html` but holds the byte
`0xFF`, which no UTF-8 sequence contains, followed by a decodable entry. -/
def badEntries : List Entry :=
  [⟨"chapter-1.html", [0xFF]⟩, ⟨"chapter-2.html", [0x68, 0x69]⟩]

def tagFx : Tag := ⟨1, "adventure", "0", "genre", "u"⟩

/-- Two story records holding pointer-distinct but value-equal author and
tag arcs, as decoding produces before the `dedup` pass. -/
def storyArcsFx : List StoryArcs :=
  [⟨⟨0, baseAuthor⟩, [⟨1, tagFx⟩]⟩, ⟨⟨2, baseAuthor⟩, [⟨3, tagFx⟩]⟩]

/-! # Theorems -/

/-! ## C10: the string-leaf compiler builds the regex before looking at
the operator -/

/-- Claim C10: when compiling a string-field leaf, the escaped
case-insensitive regex for the value is built before the operator is
examined, so a value whose escaped regex fails to compile under the 1 MiB
cap makes compilation fail with a QueryError even for the `=` operator,
which never uses the regex at evaluation time. -/
theorem strfn_exact_fails_when_regex_fails
    (build : String → Option CompiledRegex) (f : Story → String)
    (value : String) (h : build (escapeRegex value) = none) :
    strfn build f Operator.exact value =
      Except.error "Invalid value for fuzzy match" := by
  unfold strfn
  rw [h]

/-- Witness for C10 at a concrete builder, accessor and value. -/
theorem strfn_exact_fails_when_regex_fails_witness :
    buildFail (escapeRegex "x") = none ∧
    strfn buildFail (fun s => s.title) Operator.exact "x" =
      Except.error "Invalid value for fuzzy match" :=
  ⟨rfl, strfn_exact_fails_when_regex_fails buildFail (fun s => s.title) "x" rfl⟩

/-! ## C2: field-name resolution order -/

/-- Counterexample to claim C2: the claim states that `author id = 12345`
resolves the field `author id` by longest match and compiles to an
integer equality on the author's id.  In the code, `alt` commits to the
earlier branch `tag("author")`, leaving ` id = 12345` where an operator
is required, so the query does not parse at all. -/
theorem author_id_query_rejected :
    (parseQuery buildAlways now0 "author id = 12345").isOk = false := by
  rfl

/-- Claim C2 (amended): field names resolve by first match in the
declaration order of `source`, not by longest match: on `author id = ...`
the field parser consumes `author` (the author-name accessor) and leaves
` id = ...`, so the whole query fails to parse with a QueryError, and
`archive path = ...` likewise fails (the field parser consumes
`archive`); the `author id` and `archive path` field names are
unreachable. -/
theorem field_resolution_first_match :
    source "author id = 12345".data =
      Except.ok (" id = 12345".data, Source.strFn (fun s => s.author.name))
  ∧ source "archive path = x".data =
      Except.ok (" path = x".data, Source.strFn (fun s => s.archive.path))
  ∧ (parseQuery buildAlways now0 "author id = 12345").isOk = false
  ∧ (parseQuery buildAlways now0 "archive path = x").isOk = false :=
  ⟨rfl, rfl, rfl, rfl⟩

/-! ## C3: determinism of parse-then-filter -/

/-- Counterexample to claim C3: parse-then-filter is not independent of
the wall-clock instant at which date values are parsed.  The query
`published > now` compiles against `Utc::now()`; run once at the epoch
and once ten seconds later over the same one-story table, the result
lists differ. -/
theorem run_query_depends_on_now :
    runQuery buildAlways now0 [dateStory] "published > now" ≠
      runQuery buildAlways ⟨10, 0⟩ [dateStory] "published > now" := by
  decide

/-- Claim C3 (amended): `filter(parse(q))` is a deterministic function of
the story table, the query string, and the instant `Utc::now()` supplies
to date-value parsing: the instant influences the outcome only through
`parse_date_string`, so two runs whose date parses agree produce
identical result lists. -/
theorem run_query_deterministic_given_instant
    (build : String → Option CompiledRegex) (now1 now2 : DateTime)
    (index : List Story) (q : String)
    (h : ∀ v, parseDateString v now1 = parseDateString v now2) :
    runQuery build now1 index q = runQuery build now2 index q := by
  unfold runQuery parseQuery
  rw [funext h]

/-- Witness for C3 (amended): both hypothesis and conclusion at the epoch
instant on the one-story table. -/
theorem run_query_deterministic_given_instant_witness :
    (∀ v, parseDateString v now0 = parseDateString v now0) ∧
    runQuery buildAlways now0 [dateStory] "published > now" =
      runQuery buildAlways now0 [dateStory] "published > now" :=
  ⟨fun _ => rfl,
   run_query_deterministic_given_instant buildAlways now0 now0 [dateStory]
     "published > now" (fun _ => rfl)⟩

/-! ## C5: semantics of compiled timestamp leaves -/

/-- Claim C5: for every compiled timestamp leaf and every story, an
absent field yields `false` under all four operators; a present field
satisfies `=` exactly when the timestamp equals the parsed value, `:`
exactly when it falls on the same UTC calendar day, and `<`/`>` under
strict comparison. -/
theorem timestamp_leaf_semantics
    (build : String → Option CompiledRegex)
    (pds : String → Option DateTime)
    (f : Story → Option DateTime) (op : Operator) (value : String)
    (d : DateTime) (h : pds value = some d) :
    ∃ pred : Filter,
      optimize build pds (Source.dtuFn f) op value = Except.ok pred ∧
      ∀ story : Story,
        (f story = none → pred story = false) ∧
        (∀ dt, f story = some dt →
          (pred story = true ↔
            match op with
            | Operator.exact => dt = d
            | Operator.fuzzy => dtDate dt = dtDate d
            | Operator.lessThan => dtLt dt d = true
            | Operator.moreThan => dtLt d dt = true)) := by
  unfold optimize dtufn
  rw [h]
  cases op <;>
    refine ⟨_, rfl, fun story => ⟨fun h0 => by simp [h0], fun dt hdt => ?_⟩⟩ <;>
    simp [hdt]


/-- Witness for C5: the `published > 2015-01-01` leaf at the epoch
instant. -/
theorem timestamp_leaf_semantics_witness :
    (fun v => parseDateString v now0) "2015-01-01" = some ⟨1420070400, 0⟩ ∧
    ∃ pred : Filter,
      optimize buildAlways (fun v => parseDateString v now0)
          (Source.dtuFn (fun s => s.date_published)) Operator.moreThan
          "2015-01-01" = Except.ok pred ∧
      ∀ story : Story,
        ((fun s : Story => s.date_published) story = none →
          pred story = false) ∧
        (∀ dt, (fun s : Story => s.date_published) story = some dt →
          (pred story = true ↔
            match Operator.moreThan with
            | Operator.exact => dt = ⟨1420070400, 0⟩
            | Operator.fuzzy => dtDate dt = dtDate ⟨1420070400, 0⟩
            | Operator.lessThan => dtLt dt ⟨1420070400, 0⟩ = true
            | Operator.moreThan => dtLt ⟨1420070400, 0⟩ dt = true)) :=
  ⟨by decide,
   timestamp_leaf_semantics buildAlways (fun v => parseDateString v now0)
     (fun s => s.date_published) Operator.moreThan "2015-01-01"
     ⟨1420070400, 0⟩ (by decide)⟩

/-! ## C7: undecodable `.html` entries during the index build -/

/-- Counterexample to claim C7: the claim states that an `.html` entry
with invalid UTF-8 is skipped and the story's document is still written
with the remaining texts (here `some ["hi"]`).  The code calls
`read_to_string(..).unwrap()`, so the decode failure panics and no
document is produced. -/
theorem undecodable_entry_panics :
    buildDocument badEntries = none := by
  rfl

/-- Claim C7 (amended): only entries whose names do not end in `.html`
are skipped; the story's document is the UTF-8 decoding of every `.html`
entry in order, and a single undecodable `.html` entry aborts the whole
document (an unwrap panic) rather than being skipped. -/
theorem build_document_characterization (entries : List Entry) :
    buildDocument entries =
      (entries.filter (fun e => ".html".data.isSuffixOf e.name.data)).mapM
        (fun e => (utf8Decode e.bytes).map (fun cs => String.mk cs)) := by
  induction entries with
  | nil => rfl
  | cons e rest ih =>
    by_cases hname : ".html".data.isSuffixOf e.name.data
    · simp only [List.filter_cons, hname, if_true, List.mapM_cons,
        buildDocument, Bool.not_true, Bool.false_eq_true, if_false]
      cases hdec : utf8Decode e.bytes with
      | none => rfl
      | some cs =>
        rw [ih]
        cases (rest.filter (fun e => ".html".data.isSuffixOf e.name.data)).mapM
          (fun e => (utf8Decode e.bytes).map (fun cs => String.mk cs)) <;> rfl
    · have hf : ".html".data.isSuffixOf e.name.data = false := by
        rw [Bool.eq_false_iff]
        intro hx
        exact hname hx
      simp only [List.filter_cons, hf, Bool.false_eq_true, if_false,
        buildDocument, Bool.not_false, if_true]
      exact ih

/-! ## C1: `fetch` is a correct lookup on a strictly sorted table -/

theorem bsGo_some (f : Nat → Int) (key : Int) :
    ∀ fuel left right i, bsGo f key fuel left right = some i →
      left ≤ i ∧ i < right ∧ f i = key := by
  intro fuel
  induction fuel with
  | zero => intro left right i h; simp [bsGo] at h
  | succ fuel ih =>
    intro left right i h
    simp only [bsGo] at h
    by_cases hlr : left < right
    · rw [if_pos hlr] at h
      by_cases h1 : f (left + (right - left) / 2) < key
      · rw [if_pos h1] at h
        have := ih _ _ _ h
        omega
      · rw [if_neg h1] at h
        by_cases h2 : key < f (left + (right - left) / 2)
        · rw [if_pos h2] at h
          have := ih _ _ _ h
          omega
        · rw [if_neg h2] at h
          have hi : i = left + (right - left) / 2 := by
            cases h; rfl
          subst hi
          refine ⟨by omega, by omega, by omega⟩
    · rw [if_neg hlr] at h
      cases h

theorem bsGo_none (f : Nat → Int) (key : Int) (n : Nat)
    (mono : ∀ i j, i ≤ j → j < n → f i ≤ f j) :
    ∀ fuel left right, right ≤ n → right - left < fuel →
      (∀ i, i < n → f i = key → left ≤ i ∧ i < right) →
      bsGo f key fuel left right = none →
      ∀ i, i < n → f i ≠ key := by
  intro fuel
  induction fuel with
  | zero => omega
  | succ fuel ih =>
    intro left right hrn hfuel hinv h
    simp only [bsGo] at h
    by_cases hlr : left < right
    · rw [if_pos hlr] at h
      by_cases h1 : f (left + (right - left) / 2) < key
      · rw [if_pos h1] at h
        refine ih (left + (right - left) / 2 + 1) right hrn (by omega) ?_ h
        intro i hi hik
        have hold := hinv i hi hik
        by_cases hle : i ≤ left + (right - left) / 2
        · have := mono i (left + (right - left) / 2) hle (by omega)
          omega
        · omega
      · rw [if_neg h1] at h
        by_cases h2 : key < f (left + (right - left) / 2)
        · rw [if_pos h2] at h
          refine ih left (left + (right - left) / 2) (by omega) (by omega) ?_ h
          intro i hi hik
          have hold := hinv i hi hik
          by_cases hge : left + (right - left) / 2 ≤ i
          · have := mono (left + (right - left) / 2) i hge hi
            omega
          · omega
        · rw [if_neg h2] at h
          cases h
    · rw [if_neg hlr] at h
      intro i hi hik
      have := hinv i hi hik
      omega

theorem bsLoop_isSome_iff (f : Nat → Int) (key : Int) (n : Nat)
    (mono : ∀ i j, i ≤ j → j < n → f i ≤ f j) :
    (bsLoop f key 0 n).isSome = true ↔ ∃ i, i < n ∧ f i = key := by
  unfold bsLoop
  constructor
  · intro h
    cases hbs : bsGo f key (n - 0 + 1) 0 n with
    | none => rw [hbs] at h; cases h
    | some i =>
      have := bsGo_some f key _ _ _ _ hbs
      exact ⟨i, by omega, by omega⟩
  · intro ⟨i, hi, hik⟩
    cases hbs : bsGo f key (n - 0 + 1) 0 n with
    | none =>
      have := bsGo_none f key n mono _ 0 n (le_refl n) (by omega)
        (fun i hi hik => ⟨Nat.zero_le i, hi⟩) hbs i hi
      omega
    | some j => rfl

theorem idAt_eq (index : List Story) (i : Nat) (h : i < index.length) :
    idAt index i = (index.get ⟨i, h⟩).id := by
  unfold idAt
  rw [List.get?_eq_get h]
  rfl

theorem sorted_mono (index : List Story)
    (hsorted : index.Pairwise (fun a b => a.id < b.id)) :
    ∀ i j, i ≤ j → j < index.length → idAt index i ≤ idAt index j := by
  intro i j hij hj
  rcases Nat.eq_or_lt_of_le hij with heq | hlt
  · subst heq; exact le_refl _
  · rw [idAt_eq index i (by omega), idAt_eq index j hj]
    exact le_of_lt
      (List.pairwise_iff_get.mp hsorted ⟨i, by omega⟩ ⟨j, hj⟩ hlt)

/-- Claim C1: on a table sorted strictly ascending by id, `fetch k`
returns exactly the story with id `k` when one exists, and `none` when no
story in the table has id `k`. -/
theorem fetch_spec (index : List Story)
    (hsorted : index.Pairwise (fun a b => a.id < b.id)) (k : Int) :
    (∀ s, fetch index k = some s ↔ s ∈ index ∧ s.id = k) ∧
    (fetch index k = none ↔ ∀ s ∈ index, s.id ≠ k) := by
  have mono := sorted_mono index hsorted
  have key_unique : ∀ s t, s ∈ index → t ∈ index → s.id = k → t.id = k → s = t := by
    intro s t hs ht hsk htk
    rcases List.mem_iff_get.mp hs with ⟨i, hi⟩
    rcases List.mem_iff_get.mp ht with ⟨j, hj⟩
    rcases Nat.lt_trichotomy i.val j.val with hlt | heq | hgt
    · have := List.pairwise_iff_get.mp hsorted i j hlt
      rw [hi, hj, hsk, htk] at this
      omega
    · rw [← hi, ← hj]
      congr 1
      exact Fin.ext heq
    · have := List.pairwise_iff_get.mp hsorted j i hgt
      rw [hi, hj, hsk, htk] at this
      omega
  constructor
  · intro s
    constructor
    · intro h
      unfold fetch at h
      cases hbs : bsLoop (idAt index) k 0 index.length with
      | none => rw [hbs] at h; cases h
      | some i =>
        rw [hbs] at h
        dsimp only at h
        have hprops := bsGo_some (idAt index) k _ _ _ _ hbs
        have hlen : i < index.length := hprops.2.1
        rw [List.get?_eq_get hlen] at h
        cases h
        exact ⟨List.get_mem index i hlen, by
          rw [← idAt_eq index i hlen]; exact hprops.2.2⟩
    · intro ⟨hmem, hid⟩
      rcases List.mem_iff_get.mp hmem with ⟨j, hj⟩
      have hex : ∃ i, i < index.length ∧ idAt index i = k := by
        refine ⟨j.val, j.isLt, ?_⟩
        rw [idAt_eq index j.val j.isLt]
        have hfin : index.get ⟨j.val, j.isLt⟩ = index.get j := by
          congr 1
        rw [hfin, hj, hid]
      have hsome := (bsLoop_isSome_iff (idAt index) k index.length mono).mpr hex
      unfold fetch
      cases hbs : bsLoop (idAt index) k 0 index.length with
      | none => rw [hbs] at hsome; cases hsome
      | some i =>
        dsimp only
        have hprops := bsGo_some (idAt index) k _ _ _ _ hbs
        have hlen : i < index.length := hprops.2.1
        rw [List.get?_eq_get hlen]
        have hmem' : index.get ⟨i, hlen⟩ ∈ index := List.get_mem index i hlen
        have hid' : (index.get ⟨i, hlen⟩).id = k := by
          rw [← idAt_eq index i hlen]; exact hprops.2.2
        rw [key_unique _ _ hmem' hmem hid' hid]
  · constructor
    · intro h s hmem hid
      unfold fetch at h
      cases hbs : bsLoop (idAt index) k 0 index.length with
      | none =>
        rcases List.mem_iff_get.mp hmem with ⟨j, hj⟩
        have hex : ∃ i, i < index.length ∧ idAt index i = k := by
          refine ⟨j.val, j.isLt, ?_⟩
          rw [idAt_eq index j.val j.isLt]
          have hfin : index.get ⟨j.val, j.isLt⟩ = index.get j := by
            congr 1
          rw [hfin, hj, hid]
        have hsome := (bsLoop_isSome_iff (idAt index) k index.length mono).mpr hex
        rw [hbs] at hsome
        cases hsome
      | some i =>
        rw [hbs] at h
        dsimp only at h
        have hprops := bsGo_some (idAt index) k _ _ _ _ hbs
        rw [List.get?_eq_get hprops.2.1] at h
        cases h
    · intro h
      unfold fetch
      cases hbs : bsLoop (idAt index) k 0 index.length with
      | none => rfl
      | some i =>
        have hprops := bsGo_some (idAt index) k _ _ _ _ hbs
        have hlen : i < index.length := hprops.2.1
        have hmem : index.get ⟨i, hlen⟩ ∈ index := List.get_mem index i hlen
        have : (index.get ⟨i, hlen⟩).id = k := by
          rw [← idAt_eq index i hlen]; exact hprops.2.2
        exact absurd this (h _ hmem)

/-- Witness for C1 on the concrete sorted three-story table, looking up a
present id and an absent id. -/
theorem fetch_spec_witness :
    tableFx.Pairwise (fun a b => a.id < b.id) ∧
    ((∀ s, fetch tableFx 4 = some s ↔ s ∈ tableFx ∧ s.id = 4) ∧
     (fetch tableFx 4 = none ↔ ∀ s ∈ tableFx, s.id ≠ 4)) ∧
    ((∀ s, fetch tableFx 5 = some s ↔ s ∈ tableFx ∧ s.id = 5) ∧
     (fetch tableFx 5 = none ↔ ∀ s ∈ tableFx, s.id ≠ 5)) :=
  ⟨by decide,
   fetch_spec tableFx (by decide) 4,
   fetch_spec tableFx (by decide) 5⟩

/-! ## C6: duplicate ids abort the load -/

theorem dedupByKey_length_le (key : α → Int) (l : List α) :
    (dedupByKey key l).length ≤ l.length := by
  induction l using dedupByKey.induct key with
  | case1 => simp [dedupByKey]
  | case2 a => simp [dedupByKey]
  | case3 a b rest hk ih =>
    rw [dedupByKey, if_pos hk]
    simp only [List.length_cons]
    calc (dedupByKey key (a :: rest)).length ≤ (a :: rest).length := ih
    _ ≤ rest.length + 1 + 1 := by simp
  | case4 a b rest hk ih =>
    rw [dedupByKey, if_neg hk]
    simpa using ih

theorem dedupByKey_length_iff (key : α → Int) (l : List α)
    (hs : l.Pairwise (fun a b => key a ≤ key b)) :
    (dedupByKey key l).length = l.length ↔
      l.Pairwise (fun a b => key a ≠ key b) := by
  induction l using dedupByKey.induct key with
  | case1 => simp [dedupByKey]
  | case2 a => simp [dedupByKey]
  | case3 a b rest hk ih =>
    rw [dedupByKey, if_pos hk]
    constructor
    · intro hlen
      exfalso
      have hle := dedupByKey_length_le key (a :: rest)
      simp only [List.length_cons] at hlen hle
      omega
    · intro hpw
      exfalso
      rcases List.pairwise_cons.mp hpw with ⟨hhead, _⟩
      exact hhead b (by simp) hk.symm
  | case4 a b rest hk ih =>
    rw [dedupByKey, if_neg hk]
    rcases List.pairwise_cons.mp hs with ⟨hahead, hstail⟩
    have hab : key a ≤ key b := hahead b (by simp)
    have harest : ∀ x ∈ rest, key a ≤ key x := fun x hx =>
      hahead x (by simp [hx])
    rcases List.pairwise_cons.mp hstail with ⟨hbhead, _⟩
    simp only [List.length_cons]
    have ih' := ih hstail
    simp only [List.length_cons] at ih'
    rw [Nat.add_right_cancel_iff, ih']
    constructor
    · intro hpw
      refine List.pairwise_cons.mpr ⟨?_, hpw⟩
      intro x hx
      rcases List.mem_cons.mp hx with hxb | hxr
      · subst hxb; exact fun he => hk he.symm
      · intro he
        have h1 : key b ≤ key x := hbhead x hxr
        omega
    · intro hpw
      exact (List.pairwise_cons.mp hpw).2

/-- Claim C6: the reducer stage aborts with an IndexError exactly when
two distinct decoded stories share an id (it compares the vector length
before and after adjacent-duplicate removal on the id-sorted vector); a
body with pairwise-distinct ids loads without this error. -/
theorem reduce_ok_iff_distinct_ids (stories : List Story) :
    (reduceStories stories).isOk = true ↔
      stories.Pairwise (fun a b => a.id ≠ b.id) := by
  simp only [reduceStories]
  have hlen : (stories.mergeSort (fun a b => a.id ≤ b.id)).length =
      stories.length := List.length_mergeSort stories
  have hperm := List.mergeSort_perm stories (fun a b => a.id ≤ b.id)
  have hsorted : (stories.mergeSort (fun a b => a.id ≤ b.id)).Pairwise
      (fun a b => a.id ≤ b.id) := by
    have := @List.sorted_mergeSort Story
      (fun a b : Story => decide (a.id ≤ b.id))
      (fun a b c hab hbc => by
        simp only [decide_eq_true_eq] at hab hbc ⊢; omega)
      (fun a b => by
        simp only [Bool.or_eq_true, decide_eq_true_eq]; omega)
      stories
    exact this.imp (fun h => by simpa using h)
  have hiff := dedupByKey_length_iff (fun s : Story => s.id)
    (stories.mergeSort (fun a b => a.id ≤ b.id)) hsorted
  have hpermiff : (stories.mergeSort (fun a b => a.id ≤ b.id)).Pairwise
      (fun a b : Story => a.id ≠ b.id) ↔
      stories.Pairwise (fun a b : Story => a.id ≠ b.id) :=
    List.Perm.pairwise_iff (fun h => h.symm) hperm
  split
  · rename_i hne
    simp only [Except.isOk]
    constructor
    · intro hc; cases hc
    · intro hpw
      exfalso
      apply hne
      have := hiff.mpr (hpermiff.mpr hpw)
      omega
  · rename_i hne
    simp only [Except.isOk]
    constructor
    · intro _
      have hd : (dedupByKey (fun s : Story => s.id)
          (stories.mergeSort (fun a b => a.id ≤ b.id))).length =
          (stories.mergeSort (fun a b => a.id ≤ b.id)).length := by omega
      exact hpermiff.mp (hiff.mp hd)
    · intro _; rfl

/-! ## C8: search output and the derived predicate -/

theorem intGetD_eq (xs : List Int) (i : Nat) (h : i < xs.length) :
    (xs.get? i).getD 0 = xs.get ⟨i, h⟩ := by
  rw [List.get?_eq_get h]
  rfl

theorem int_sorted_mono (xs : List Int) (hs : xs.Pairwise (· ≤ ·)) :
    ∀ i j, i ≤ j → j < xs.length →
      (xs.get? i).getD 0 ≤ (xs.get? j).getD 0 := by
  intro i j hij hj
  rcases Nat.eq_or_lt_of_le hij with heq | hlt
  · subst heq; exact le_refl _
  · rw [intGetD_eq xs i (by omega), intGetD_eq xs j hj]
    exact List.pairwise_iff_get.mp hs ⟨i, by omega⟩ ⟨j, hj⟩ hlt

theorem int_exists_iff_mem (xs : List Int) (k : Int) :
    (∃ i, i < xs.length ∧ (xs.get? i).getD 0 = k) ↔ k ∈ xs := by
  constructor
  · intro ⟨i, hi, hk⟩
    rw [intGetD_eq xs i hi] at hk
    rw [← hk]
    exact List.get_mem xs i hi
  · intro hmem
    rcases List.mem_iff_get.mp hmem with ⟨j, hj⟩
    exact ⟨j.val, j.isLt, by
      rw [intGetD_eq xs j.val j.isLt]
      have hfin : xs.get ⟨j.val, j.isLt⟩ = xs.get j := by congr 1
      rw [hfin, hj]⟩

theorem searchSids_sorted (scored : List (Int × ℚ)) :
    (searchSids scored).Pairwise (fun a b : Int => a ≤ b) := by
  unfold searchSids
  have := @List.sorted_mergeSort Int (fun a b : Int => decide (a ≤ b))
    (fun a b c hab hbc => by
      simp only [decide_eq_true_eq] at hab hbc ⊢; omega)
    (fun a b => by simp only [Bool.or_eq_true, decide_eq_true_eq]; omega)
    (((searchHits scored).filter (fun p => (10 : ℚ) < p.2)).map
      (fun p => p.1))
  exact this.imp (fun h => by simpa using h)

/-- Claim C8: `search` returns at most 32 `(story_id, score)` pairs in
descending score order, and the predicate built by `Searcher::parse`
holds for a story exactly when its id is among the returned ids scoring
strictly above `10.0` (membership decided by binary search over those ids
sorted ascending, the search being evaluated once at construction). -/
theorem search_spec (scored : List (Int × ℚ)) :
    (searchHits scored).length ≤ 32 ∧
    (searchHits scored).Pairwise (fun a b => b.2 ≤ a.2) ∧
    (∀ story : Story, searchPred scored story = true ↔
      story.id ∈ ((searchHits scored).filter
        (fun p => (10 : ℚ) < p.2)).map (fun p => p.1)) := by
  refine ⟨?_, ?_, ?_⟩
  · unfold searchHits topDocs
    rw [List.length_take]
    exact min_le_left _ _
  · unfold searchHits topDocs
    refine List.Pairwise.sublist (List.take_sublist _ _) ?_
    have := @List.sorted_mergeSort (Int × ℚ)
      (fun a b : Int × ℚ => decide (b.2 ≤ a.2))
      (fun a b c hab hbc => by
        simp only [decide_eq_true_eq] at hab hbc ⊢
        exact le_trans hbc hab)
      (fun a b => by
        simp only [Bool.or_eq_true, decide_eq_true_eq]
        exact le_total b.2 a.2)
      scored
    exact this.imp (fun h => by simpa using h)
  · intro story
    simp only [searchPred]
    rw [bsLoop_isSome_iff _ _ _
      (int_sorted_mono (searchSids scored) (searchSids_sorted scored))]
    rw [int_exists_iff_mem]
    exact (List.mergeSort_perm _ _).mem_iff

/-! ## C9: interning collapses equal values to one shared handle -/

theorem arc_unique {α : Type} {l : List (Arc α)}
    (hW : l.Pairwise (fun a b => a.val ≠ b.val)) :
    ∀ {t a : Arc α}, t ∈ l → a ∈ l → t.val = a.val → t = a := by
  induction l with
  | nil => intro t a ht _ _; cases ht
  | cons x xs ih =>
    intro t a ht ha hval
    rcases List.pairwise_cons.mp hW with ⟨hx, hxs⟩
    rcases List.mem_cons.mp ht with rfl | ht'
    · rcases List.mem_cons.mp ha with rfl | ha'
      · rfl
      · exact absurd hval (hx a ha')
    · rcases List.mem_cons.mp ha with rfl | ha'
      · exact absurd hval.symm (hx t ht')
      · exact ih hxs ht' ha' hval

theorem dedupAuthors_coherent (stories : List StoryArcs) :
    ∀ (seen : List (Arc Author)),
      seen.Pairwise (fun a b => a.val ≠ b.val) →
      ((∀ st ∈ dedupAuthors seen stories, ∀ a ∈ seen,
          st.author.val = a.val → st.author = a) ∧
       (∀ s1 s2, s1 ∈ dedupAuthors seen stories →
          s2 ∈ dedupAuthors seen stories →
          s1.author.val = s2.author.val → s1.author = s2.author)) := by
  induction stories with
  | nil =>
    intro seen _
    exact ⟨by simp [dedupAuthors], by simp [dedupAuthors]⟩
  | cons st rest ih =>
    intro seen hW
    cases hf : seen.find? (fun a => decide (a.val = st.author.val)) with
    | some a =>
      have ha_mem : a ∈ seen := List.mem_of_find?_eq_some hf
      have ha_val : a.val = st.author.val := by
        have := List.find?_some hf
        simpa using this
      have ihs := ih seen hW
      constructor
      · intro st' hst' b hb hval
        simp only [dedupAuthors, hf] at hst'
        rcases List.mem_cons.mp hst' with rfl | htail
        · exact arc_unique hW ha_mem hb hval
        · exact ihs.1 st' htail b hb hval
      · intro s1 s2 h1 h2 hval
        simp only [dedupAuthors, hf] at h1 h2
        rcases List.mem_cons.mp h1 with rfl | h1t
        · rcases List.mem_cons.mp h2 with rfl | h2t
          · rfl
          · exact (ihs.1 s2 h2t a ha_mem (by simpa using hval.symm)).symm
        · rcases List.mem_cons.mp h2 with rfl | h2t
          · exact ihs.1 s1 h1t a ha_mem (by simpa using hval)
          · exact ihs.2 s1 s2 h1t h2t hval
    | none =>
      have hnone : ∀ a ∈ seen, ¬ a.val = st.author.val := by
        intro a ha
        have := List.find?_eq_none.mp hf a ha
        simpa using this
      have hW' : (seen ++ [st.author]).Pairwise
          (fun a b => a.val ≠ b.val) := by
        rw [List.pairwise_append]
        exact ⟨hW, List.pairwise_singleton _ _, by
          intro a ha b hb
          rw [List.mem_singleton.mp hb]
          exact hnone a ha⟩
      have ihs := ih (seen ++ [st.author]) hW'
      have hself : st.author ∈ seen ++ [st.author] := by simp
      constructor
      · intro st' hst' b hb hval
        simp only [dedupAuthors, hf] at hst'
        rcases List.mem_cons.mp hst' with rfl | htail
        · exact absurd hval.symm (hnone b hb)
        · exact ihs.1 st' htail b (List.mem_append_left _ hb) hval
      · intro s1 s2 h1 h2 hval
        simp only [dedupAuthors, hf] at h1 h2
        rcases List.mem_cons.mp h1 with rfl | h1t
        · rcases List.mem_cons.mp h2 with rfl | h2t
          · rfl
          · exact (ihs.1 s2 h2t s1.author hself (by simpa using hval.symm)).symm
        · rcases List.mem_cons.mp h2 with rfl | h2t
          · exact ihs.1 s1 h1t s2.author hself (by simpa using hval)
          · exact ihs.2 s1 s2 h1t h2t hval

theorem insertTag_mem (seen : List (Arc Tag)) (t x : Arc Tag)
    (hx : x ∈ seen) : x ∈ insertTagIfAbsent seen t := by
  unfold insertTagIfAbsent
  split
  · exact hx
  · exact List.mem_append_left _ hx

theorem insertTag_wf (seen : List (Arc Tag)) (t : Arc Tag)
    (hW : seen.Pairwise (fun a b => a.val ≠ b.val)) :
    (insertTagIfAbsent seen t).Pairwise (fun a b => a.val ≠ b.val) := by
  unfold insertTagIfAbsent
  split
  · exact hW
  · rename_i hany
    rw [List.pairwise_append]
    refine ⟨hW, List.pairwise_singleton _ _, ?_⟩
    intro a ha b hb
    rw [List.mem_singleton.mp hb]
    intro he
    exact hany (List.any_eq_true.mpr ⟨a, ha, by simpa using he⟩)

theorem foldl_insertTag_mem (ts : List (Arc Tag)) :
    ∀ (seen : List (Arc Tag)) (x : Arc Tag), x ∈ seen →
      x ∈ ts.foldl insertTagIfAbsent seen := by
  induction ts with
  | nil => intro seen x hx; exact hx
  | cons t ts ih =>
    intro seen x hx
    exact ih _ x (insertTag_mem seen t x hx)

theorem foldl_insertTag_wf (ts : List (Arc Tag)) :
    ∀ (seen : List (Arc Tag)),
      seen.Pairwise (fun a b => a.val ≠ b.val) →
      (ts.foldl insertTagIfAbsent seen).Pairwise
        (fun a b => a.val ≠ b.val) := by
  induction ts with
  | nil => intro seen hW; exact hW
  | cons t ts ih =>
    intro seen hW
    exact ih _ (insertTag_wf seen t hW)

theorem dedupTags_coherent (stories : List StoryArcs) :
    ∀ (seen : List (Arc Tag)),
      seen.Pairwise (fun a b => a.val ≠ b.val) →
      ((∀ st ∈ dedupTags seen stories, ∀ t ∈ st.tags, ∀ a ∈ seen,
          t.val = a.val → t = a) ∧
       (∀ s1 s2 t1 t2, s1 ∈ dedupTags seen stories →
          s2 ∈ dedupTags seen stories →
          t1 ∈ s1.tags → t2 ∈ s2.tags → t1.val = t2.val → t1 = t2)) := by
  induction stories with
  | nil =>
    intro seen _
    exact ⟨by simp [dedupTags], by simp [dedupTags]⟩
  | cons st rest ih =>
    intro seen hW
    have hW' := foldl_insertTag_wf
      (st.tags.filter (fun t => ! seen.any (fun a => decide (a.val = t.val))))
      seen hW
    have hsub : ∀ x ∈ seen,
        x ∈ (st.tags.filter
          (fun t => ! seen.any (fun a => decide (a.val = t.val)))).foldl
            insertTagIfAbsent seen :=
      fun x hx => foldl_insertTag_mem _ seen x hx
    have ihs := ih _ hW'
    have hhead_mem : ∀ t, t ∈ st.tags.filterMap (fun t =>
        ((st.tags.filter
          (fun t => ! seen.any (fun a => decide (a.val = t.val)))).foldl
            insertTagIfAbsent seen).find? (fun a => decide (a.val = t.val))) →
        t ∈ (st.tags.filter
          (fun t => ! seen.any (fun a => decide (a.val = t.val)))).foldl
            insertTagIfAbsent seen := by
      intro t ht
      rcases List.mem_filterMap.mp ht with ⟨t0, _, hf⟩
      exact List.mem_of_find?_eq_some hf
    constructor
    · intro st' hst' t ht a ha hval
      simp only [dedupTags] at hst'
      rcases List.mem_cons.mp hst' with rfl | htail
      · exact arc_unique hW' (hhead_mem t ht) (hsub a ha) hval
      · exact ihs.1 st' htail t ht a (hsub a ha) hval
    · intro s1 s2 t1 t2 h1 h2 ht1 ht2 hval
      simp only [dedupTags] at h1 h2
      rcases List.mem_cons.mp h1 with rfl | h1t
      · rcases List.mem_cons.mp h2 with rfl | h2t
        · exact arc_unique hW' (hhead_mem t1 ht1) (hhead_mem t2 ht2) hval
        · exact (ihs.1 s2 h2t t2 ht2 t1 (hhead_mem t1 ht1)
            (by simpa using hval.symm)).symm
      · rcases List.mem_cons.mp h2 with rfl | h2t
        · exact ihs.1 s1 h1t t1 ht1 t2 (hhead_mem t2 ht2)
            (by simpa using hval)
        · exact ihs.2 s1 s2 t1 t2 h1t h2t ht1 ht2 hval

theorem dedupTags_author_mem (stories : List StoryArcs) :
    ∀ (seen : List (Arc Tag)) (st : StoryArcs), st ∈ dedupTags seen stories →
      ∃ st' ∈ stories, st.author = st'.author := by
  induction stories with
  | nil => intro seen st h; simp [dedupTags] at h
  | cons hd rest ih =>
    intro seen st h
    simp only [dedupTags] at h
    rcases List.mem_cons.mp h with rfl | htail
    · exact ⟨hd, by simp, rfl⟩
    · rcases ih _ st htail with ⟨st', hst', heq⟩
      exact ⟨st', by simp [hst'], heq⟩

theorem find?_append_none {α : Type} (p : α → Bool) (l₁ l₂ : List α)
    (h : l₁.find? p = none) : (l₁ ++ l₂).find? p = l₂.find? p := by
  induction l₁ with
  | nil => rfl
  | cons x xs ih =>
    have hx : p x = false := by
      have := List.find?_eq_none.mp h x (by simp)
      simpa using this
    rw [List.cons_append, List.find?_cons_of_neg _ (by simp [hx])]
    exact ih (by
      rw [List.find?_cons_of_neg _ (by simp [hx])] at h
      exact h)

/-- Claim C9: `intern` returns the already-stored handle when an equal
value is present and stores the value and returns its handle otherwise;
consequently two sequential calls on equal values return reference-equal
handles (equal allocation numbers), and after the load-time `dedup` pass
any two story records with equal author values share one author arc, and
any two tag handles with equal values are one arc. -/
theorem intern_and_dedup_spec :
    (∀ (α : Type) [DecidableEq α] (s : IState α) (v₁ v₂ : α),
      s.store.Pairwise (fun a b => a.val ≠ b.val) →
      ((∀ a ∈ s.store, a.val = v₁ → intern s v₁ = (a, s)) ∧
       ((intern s v₁).1).val = v₁ ∧
       ((intern s v₁).2).store.Pairwise (fun a b => a.val ≠ b.val) ∧
       (v₁ = v₂ → (intern ((intern s v₁).2) v₂).1 = (intern s v₁).1))) ∧
    (∀ stories : List StoryArcs,
      (∀ s1 s2, s1 ∈ dedup stories → s2 ∈ dedup stories →
        s1.author.val = s2.author.val → s1.author = s2.author) ∧
      (∀ s1 s2 t1 t2, s1 ∈ dedup stories → s2 ∈ dedup stories →
        t1 ∈ s1.tags → t2 ∈ s2.tags → t1.val = t2.val → t1 = t2)) := by
  constructor
  · intro α inst s v₁ v₂ hW
    cases hf : iget s v₁ with
    | some a =>
      have ha_mem : a ∈ s.store := List.mem_of_find?_eq_some hf
      have ha_val : a.val = v₁ := by
        have := List.find?_some hf
        simpa using this
      have hcall : intern s v₁ = (a, s) := by
        unfold intern
        rw [hf]
      refine ⟨?_, ?_, ?_, ?_⟩
      · intro b hb hbv
        rw [hcall, arc_unique hW ha_mem hb (by rw [ha_val, hbv])]
      · rw [hcall]; exact ha_val
      · rw [hcall]; exact hW
      · intro hv
        subst hv
        rw [hcall, hcall]
    | none =>
      have hnone : ∀ a ∈ s.store, ¬ a.val = v₁ := by
        intro a ha
        have := List.find?_eq_none.mp hf a ha
        simpa using this
      have hany : s.store.any (fun a => decide (a.val = v₁)) = false := by
        rw [List.any_eq_false]
        intro a ha
        simpa using hnone a ha
      have hcall : intern s v₁ =
          (⟨s.next, v₁⟩, ⟨s.store ++ [⟨s.next, v₁⟩], s.next + 1⟩) := by
        unfold intern iset
        rw [hf, hany]
        rfl
      have hW' : (s.store ++ [(⟨s.next, v₁⟩ : Arc α)]).Pairwise
          (fun a b => a.val ≠ b.val) := by
        rw [List.pairwise_append]
        exact ⟨hW, List.pairwise_singleton _ _, by
          intro a ha b hb
          rw [List.mem_singleton.mp hb]
          exact hnone a ha⟩
      refine ⟨?_, ?_, ?_, ?_⟩
      · intro b hb hbv
        exact absurd hbv (hnone b hb)
      · rw [hcall]
      · rw [hcall]; exact hW'
      · intro hv
        subst hv
        rw [hcall]
        have hget : iget (⟨s.store ++ [⟨s.next, v₁⟩], s.next + 1⟩ : IState α)
            v₁ = some ⟨s.next, v₁⟩ := by
          unfold iget at hf ⊢
          rw [find?_append_none _ _ _ hf]
          rw [List.find?_cons_of_pos _ (by simp)]
        unfold intern
        rw [hget]
  · intro stories
    have hA := dedupAuthors_coherent stories [] List.Pairwise.nil
    have hT := dedupTags_coherent (dedupAuthors [] stories) [] List.Pairwise.nil
    constructor
    · intro s1 s2 h1 h2 hval
      rcases dedupTags_author_mem (dedupAuthors [] stories) [] s1 h1
        with ⟨s1', hs1', he1⟩
      rcases dedupTags_author_mem (dedupAuthors [] stories) [] s2 h2
        with ⟨s2', hs2', he2⟩
      rw [he1, he2]
      rw [he1, he2] at hval
      exact hA.2 s1' s2' hs1' hs2' hval
    · exact fun s1 s2 t1 t2 h1 h2 => hT.2 s1 s2 t1 t2 h1 h2

/-- Witness for C9: the empty interner store interning one author twice,
and the two-story fixture whose author and tag arcs are value-equal but
pointer-distinct. -/
theorem intern_and_dedup_spec_witness :
    ((IState.mk ([] : List (Arc Author)) 0).store.Pairwise
      (fun a b => a.val ≠ b.val)) ∧
    ((∀ a ∈ (IState.mk ([] : List (Arc Author)) 0).store,
        a.val = baseAuthor →
        intern (IState.mk ([] : List (Arc Author)) 0) baseAuthor =
          (a, IState.mk ([] : List (Arc Author)) 0)) ∧
     ((intern (IState.mk ([] : List (Arc Author)) 0) baseAuthor).1).val =
        baseAuthor ∧
     ((intern (IState.mk ([] : List (Arc Author)) 0) baseAuthor).2).store.Pairwise
        (fun a b => a.val ≠ b.val) ∧
     (baseAuthor = baseAuthor →
       (intern ((intern (IState.mk ([] : List (Arc Author)) 0)
          baseAuthor).2) baseAuthor).1 =
        (intern (IState.mk ([] : List (Arc Author)) 0) baseAuthor).1)) ∧
    ((∀ s1 s2, s1 ∈ dedup storyArcsFx → s2 ∈ dedup storyArcsFx →
        s1.author.val = s2.author.val → s1.author = s2.author) ∧
     (∀ s1 s2 t1 t2, s1 ∈ dedup storyArcsFx → s2 ∈ dedup storyArcsFx →
        t1 ∈ s1.tags → t2 ∈ s2.tags → t1.val = t2.val → t1 = t2)) :=
  ⟨List.Pairwise.nil,
   intern_and_dedup_spec.1 Author (IState.mk [] 0) baseAuthor baseAuthor
     List.Pairwise.nil,
   intern_and_dedup_spec.2 storyArcsFx⟩

/-! ## C4: unknown top-level fields -/

theorem countKey_skip (pre post : List (String × Json)) (nm k : String)
    (v : Json) (h : nm ≠ k) :
    countKey (pre ++ (nm, v) :: post) k = countKey (pre ++ post) k := by
  unfold countKey
  rw [List.filter_append, List.filter_append, List.filter_cons]
  simp [h]

theorem getKey_skip (pre post : List (String × Json)) (nm k : String)
    (v : Json) (h : nm ≠ k) :
    getKey (pre ++ (nm, v) :: post) k = getKey (pre ++ post) k := by
  unfold getKey
  rw [List.find?_append, List.find?_append,
    List.find?_cons_of_neg _ (by simp [h])]

theorem all_countKey_congr (fs fs' : List (String × Json)) :
    ∀ (L : List String), (∀ k ∈ L, countKey fs k = countKey fs' k) →
      (L.all fun n => countKey fs n ≤ 1) =
      (L.all fun n => countKey fs' n ≤ 1) := by
  intro L hL
  induction L with
  | nil => rfl
  | cons x xs ih =>
    simp only [List.all_cons]
    rw [hL x (by simp), ih (fun k hk => hL k (by simp [hk]))]

theorem checkDup_congr (fs fs' : List (String × Json)) (names : List String)
    (h : ∀ k ∈ names, countKey fs k = countKey fs' k) :
    checkDup fs names = checkDup fs' names := by
  unfold checkDup
  rw [all_countKey_congr fs fs' names h]

theorem reqField_congr {α : Type} (fs fs' : List (String × Json))
    (k : String) (dec : JDec α) (h : getKey fs k = getKey fs' k) :
    reqField fs k dec = reqField fs' k dec := by
  unfold reqField
  rw [h]

theorem optField_congr {α : Type} (fs fs' : List (String × Json))
    (k : String) (dec : JDec α) (h : getKey fs k = getKey fs' k) :
    optField fs k dec = optField fs' k dec := by
  unfold optField
  rw [h]

theorem reqNullToText_congr (fs fs' : List (String × Json)) (k : String)
    (h : getKey fs k = getKey fs' k) :
    reqNullToText fs k = reqNullToText fs' k := by
  unfold reqNullToText
  rw [h]

theorem reqNullToHtml_congr (fs fs' : List (String × Json)) (k : String)
    (h : getKey fs k = getKey fs' k) :
    reqNullToHtml fs k = reqNullToHtml fs' k := by
  unfold reqNullToHtml
  rw [h]

/-- `decStory` consults an object only through the declared field
names. -/
theorem decStory_ext (fs fs' : List (String × Json))
    (hget : ∀ k ∈ storyFields, getKey fs k = getKey fs' k)
    (hcnt : ∀ k ∈ storyFields, countKey fs k = countKey fs' k) :
    decStory (Json.obj fs) = decStory (Json.obj fs') := by
  unfold decStory
  dsimp only
  rw [checkDup_congr fs fs' storyFields hcnt,
    reqField_congr fs fs' "archive" decArchive (hget "archive" (by decide)),
    reqField_congr fs fs' "author" decAuthor (hget "author" (by decide)),
    reqField_congr fs fs' "chapters" (decList decChapter)
      (hget "chapters" (by decide)),
    optField_congr fs fs' "color" decColor (hget "color" (by decide)),
    reqField_congr fs fs' "completion_status" decCompletionStatus
      (hget "completion_status" (by decide)),
    reqField_congr fs fs' "content_rating" decContentRating
      (hget "content_rating" (by decide)),
    optField_congr fs fs' "cover_image" decCoverImage
      (hget "cover_image" (by decide)),
    optField_congr fs fs' "date_modified" decDateTime
      (hget "date_modified" (by decide)),
    optField_congr fs fs' "date_published" decDateTime
      (hget "date_published" (by decide)),
    optField_congr fs fs' "date_updated" decDateTime
      (hget "date_updated" (by decide)),
    reqNullToHtml_congr fs fs' "description_html"
      (hget "description_html" (by decide)),
    reqField_congr fs fs' "id" decI64 (hget "id" (by decide)),
    reqField_congr fs fs' "num_chapters" decI32
      (hget "num_chapters" (by decide)),
    reqField_congr fs fs' "num_comments" decI32
      (hget "num_comments" (by decide)),
    reqField_congr fs fs' "num_dislikes" decI32
      (hget "num_dislikes" (by decide)),
    reqField_congr fs fs' "num_likes" decI32 (hget "num_likes" (by decide)),
    reqField_congr fs fs' "num_views" decI32 (hget "num_views" (by decide)),
    reqField_congr fs fs' "num_words" decI32 (hget "num_words" (by decide)),
    optField_congr fs fs' "prequel" decI64 (hget "prequel" (by decide)),
    reqField_congr fs fs' "published" decBool (hget "published" (by decide)),
    reqField_congr fs fs' "rating" decI32 (hget "rating" (by decide)),
    reqNullToText_congr fs fs' "short_description"
      (hget "short_description" (by decide)),
    reqField_congr fs fs' "status" decStatus (hget "status" (by decide)),
    reqField_congr fs fs' "submitted" decBool (hget "submitted" (by decide)),
    reqField_congr fs fs' "tags" (decList decTag) (hget "tags" (by decide)),
    reqNullToText_congr fs fs' "title" (hget "title" (by decide)),
    reqField_congr fs fs' "total_num_views" decI32
      (hget "total_num_views" (by decide)),
    reqField_congr fs fs' "url" decStr (hget "url" (by decide))]

set_option maxRecDepth 20000 in
/-- Counterexample to claim C4: the claim states that an index line whose
JSON object contains an undeclared top-level field fails to decode.  The
derived deserializers carry no `deny_unknown_fields`, so serde's default
applies and `cexLine` — a valid story object plus the undeclared field
`mysterious_extra` — decodes successfully. -/
theorem unknown_field_line_decodes :
    (deserializeLine cexLine).isOk = true := by
  rfl

/-- Claim C4 (amended): an object entry whose key is not a declared
top-level `Story` field is silently ignored: inserting such an entry
anywhere leaves the decode result unchanged (the serde default; the same
holds for the other derived structs, which also lack
`deny_unknown_fields`). -/
theorem unknown_field_ignored (pre post : List (String × Json))
    (nm : String) (v : Json) (h : ¬ nm ∈ storyFields) :
    decStory (Json.obj (pre ++ (nm, v) :: post)) =
      decStory (Json.obj (pre ++ post)) := by
  apply decStory_ext
  · intro k hk
    exact getKey_skip pre post nm k v (fun he => h (he ▸ hk))
  · intro k hk
    exact countKey_skip pre post nm k v (fun he => h (he ▸ hk))

/-- Witness for C4 (amended) at a concrete object and unknown field. -/
theorem unknown_field_ignored_witness :
    ¬ "mysterious_extra" ∈ storyFields ∧
    decStory (Json.obj
        ([("id", Json.num 7)] ++ ("mysterious_extra", Json.num 42) :: [])) =
      decStory (Json.obj ([("id", Json.num 7)] ++ [])) :=
  ⟨by decide,
   unknown_field_ignored [("id", Json.num 7)] [] "mysterious_extra"
     (Json.num 42) (by decide)⟩

end Fimfareader
